import Mathlib

/-!
# download-IPD-with-Go: a shallow embedding of `downloadIPD.go`

The definitions below follow `src/downloadIPD.go` function by function
(`determineStartingPoint`, `buildDateLookup`, `defineUrls`, `checkAndSaveFile`,
`downloadFile`).  Standard-library calls (`strings`, `strconv`, `time`, `bufio`, `fmt`,
`sort`) are modelled by small executable functions that are named after the Go function
they stand for.

Modelling conventions.

* A Go string is the list of its Unicode code points (the text is valid UTF-8).  Byte
  offsets (`key[3:]`) are computed from the UTF-8 width of each code point.
* A `time.Time` produced by `time.Parse` with a date-only layout is a calendar date at
  midnight UTC; it is a triple year / month / day.  The zero `Time` is 1 January of year 1.
* A Go `int` is a 64-bit integer: an `Int` with wrap-around made explicit where the source
  does arithmetic.
* The file system is explicit state (`World`): the persisted index mapping and the log of
  artifacts created.  What the environment decides (lock attempts, I/O failures) is an
  explicit parameter (`Env`).  The JSON file is represented by the mapping it encodes.
* A run-time panic (index or slice out of range) is a result of its own, distinct from a
  returned `error`.
* `bufio.Scanner` is used with its default line splitter and its default buffer of 64 KiB:
  a line of 65536 bytes or more ends the scan.  The body is read without a read error.
* A failed `os.WriteFile` or `os.Create` leaves the file system as it was; `io.Copy` into a
  created file succeeds.
* The retry loop around `http.Get` is represented by its outcome.

`download-ipd-alleles.go`, the earlier program of the repository, defines functions of the
same names; its `checkAndSaveFile` is embedded in the namespace `Alleles`.
-/

namespace DownloadIPD

/-! ## Strings -/

/-- A Go string: the sequence of its code points. -/
abbrev GoString := List Char

/-- Go indexing `xs[i]`: `none` stands for the run-time panic "index out of range". -/
def index? {α : Type} (xs : List α) (i : Nat) : Option α := xs.get? i

/-- Number of bytes of the UTF-8 encoding, Go's `len(s)`. -/
def byteLen (s : GoString) : Nat := (s.map Char.utf8Size).sum

/-- The Go slice `s[n:]` for `n ≤ len(s)`: the first `n` BYTES are dropped.  When the cut
falls inside a multi-byte code point the bytes left over are stray continuation bytes,
each of which Go decodes as U+FFFD. -/
def dropBytes : Nat → GoString → GoString
  | _, [] => []
  | n, c :: cs =>
    if n = 0 then c :: cs
    else if c.utf8Size ≤ n then dropBytes (n - c.utf8Size) cs
    else List.replicate (c.utf8Size - n) (Char.ofNat 65533) ++ cs

/-- The function `strings.HasPrefix`. -/
def HasPrefix (s pre : GoString) : Bool := pre.isPrefixOf s

/-- The function `strings.TrimPrefix`. -/
def TrimPrefix (s pre : GoString) : GoString :=
  if HasPrefix s pre then s.drop pre.length else s

/-- The predicate `unicode.IsSpace`. -/
def isSpace (c : Char) : Bool :=
  let n := c.toNat
  (9 ≤ n && n ≤ 13) || n = 32 || n = 133 || n = 160 || n = 5760 ||
    (8192 ≤ n && n ≤ 8202) || n = 8232 || n = 8233 || n = 8239 || n = 8287 || n = 12288

/-- The function `strings.TrimSpace`. -/
def TrimSpace (s : GoString) : GoString :=
  ((s.dropWhile isSpace).reverse.dropWhile isSpace).reverse

/-- Worker of `Fields`: `cur` is the field being read. -/
def fieldsAux : GoString → GoString → List GoString
  | cur, [] => if cur.isEmpty then [] else [cur]
  | cur, c :: cs =>
    if isSpace c then
      if cur.isEmpty then fieldsAux [] cs else cur :: fieldsAux [] cs
    else fieldsAux (cur ++ [c]) cs

/-- The function `strings.Fields`: the maximal runs of non-space characters. -/
def Fields (s : GoString) : List GoString := fieldsAux [] s

/-- Worker of `Split`: `cur` is the piece being read. -/
def splitAux (sep : Char) : GoString → GoString → List GoString
  | cur, [] => [cur]
  | cur, c :: cs =>
    if c = sep then cur :: splitAux sep [] cs else splitAux sep (cur ++ [c]) cs

/-- The function `strings.Split` for a separator of one character.  The result is never
empty. -/
def Split (s : GoString) (sep : Char) : List GoString := splitAux sep [] s

/-- The function `strings.Contains`. -/
def Contains : GoString → GoString → Bool
  | [], sub => sub.isEmpty
  | c :: cs, sub => HasPrefix (c :: cs) sub || Contains cs sub

/-! ## Numbers -/

/-- The largest Go `int`, `math.MaxInt64`. -/
def maxInt64 : Int := 9223372036854775807

/-- The smallest Go `int`, `math.MinInt64`. -/
def minInt64 : Int := -9223372036854775808

/-- Two's-complement wrap-around of a 64-bit signed result. -/
def wrapInt64 (x : Int) : Int := (x + 9223372036854775808) % 18446744073709551616 - 9223372036854775808

/-- ASCII decimal digit. -/
def isDigit (c : Char) : Bool := 48 ≤ c.toNat && c.toNat ≤ 57

/-- Value of an ASCII decimal digit. -/
def digitVal (c : Char) : Nat := c.toNat - 48

/-- The ASCII digit of a number below ten. -/
def digitChar (d : Nat) : Char := Char.ofNat (48 + d)

/-- Value of a string of decimal digits, most significant first. -/
def digitsVal (ds : GoString) : Nat := ds.foldl (fun a c => a * 10 + digitVal c) 0

/-- The function `strconv.Atoi`: an optional sign, then one or more decimal digits, the
value fitting in 64 bits; `none` stands for a returned error. -/
def Atoi (s : GoString) : Option Int :=
  let neg := s.head? = some '-'
  let ds := if s.head? = some '-' ∨ s.head? = some '+' then s.drop 1 else s
  if ds.isEmpty || !ds.all isDigit then none
  else if neg then
    if digitsVal ds ≤ 9223372036854775808 then some (-(digitsVal ds : Int)) else none
  else
    if digitsVal ds ≤ 9223372036854775807 then some (digitsVal ds : Int) else none

/-- Worker of `Itoa`: at most `fuel` digits are produced, least significant first. -/
def itoaAux : Nat → Nat → GoString → GoString
  | 0, _, acc => acc
  | fuel + 1, n, acc =>
    if n / 10 = 0 then digitChar (n % 10) :: acc
    else itoaAux fuel (n / 10) (digitChar (n % 10) :: acc)

/-- Decimal digits of a natural number, without padding. -/
def Itoa (n : Nat) : GoString := itoaAux (n + 1) n []

/-- The verb `%05d` of `fmt.Sprintf`: decimal, padded with zeros to a MINIMUM width of
five, the sign of a negative number counting for one column. -/
def Sprintf05d (i : Int) : GoString :=
  if i < 0 then
    '-' :: (List.replicate (4 - (Itoa i.natAbs).length) '0' ++ Itoa i.natAbs)
  else
    List.replicate (5 - (Itoa i.natAbs).length) '0' ++ Itoa i.natAbs

/-- The function `sort.Ints`. -/
def sortInts (xs : List Int) : List Int := xs.insertionSort (fun a b => a ≤ b)

/-! ## Dates -/

/-- A `time.Time` at midnight UTC. -/
structure Time where
  year : Nat
  month : Nat
  day : Nat
  deriving DecidableEq, Repr

namespace Time

/-- The zero value `time.Time{}`: 1 January of year 1. -/
def zero : Time := ⟨1, 1, 1⟩

/-- The method `IsZero`. -/
def IsZero (t : Time) : Bool := decide (t = zero)

/-- The method `Before`. -/
def Before (a b : Time) : Bool :=
  decide (a.year < b.year) ||
    (decide (a.year = b.year) &&
      (decide (a.month < b.month) || (decide (a.month = b.month) && decide (a.day < b.day))))

/-- The method `After`. -/
def After (a b : Time) : Bool := Before b a

/-- The method `Equal`. -/
def Equal (a b : Time) : Bool := decide (a = b)

end Time

/-- Leap years of the proleptic Gregorian calendar. -/
def isLeap (y : Nat) : Bool := y % 4 = 0 && (y % 100 != 0 || y % 400 = 0)

/-- Number of days of a month. -/
def daysIn (m y : Nat) : Nat :=
  if m = 2 then (if isLeap y then 29 else 28)
  else if m = 4 ∨ m = 6 ∨ m = 9 ∨ m = 11 then 30 else 31

/-- The final validation of `time.Parse`: month in range, day in range for the month. -/
def mkDate (y m d : Nat) : Option Time :=
  if 1 ≤ m ∧ m ≤ 12 ∧ 1 ≤ d ∧ d ≤ daysIn m y then some ⟨y, m, d⟩ else none

/-- A fixed-width decimal field of `time.Parse`. -/
def numField (ds : GoString) : Option Nat :=
  if ds.all isDigit then some (digitsVal ds) else none

/-- The call `time.Parse("2006-01-02", s)`; `none` stands for a returned error. -/
def parseYMD (s : GoString) : Option Time :=
  match s with
  | [y1, y2, y3, y4, s1, m1, m2, s2, d1, d2] =>
    if s1 = '-' ∧ s2 = '-' then
      match numField [y1, y2, y3, y4], numField [m1, m2], numField [d1, d2] with
      | some y, some m, some d => mkDate y m d
      | _, _, _ => none
    else none
  | _ => none

/-- The call `time.Parse("02/01/2006", s)`; `none` stands for a returned error. -/
def parseDMY (s : GoString) : Option Time :=
  match s with
  | [d1, d2, s1, m1, m2, s2, y1, y2, y3, y4] =>
    if s1 = '/' ∧ s2 = '/' then
      match numField [y1, y2, y3, y4], numField [m1, m2], numField [d1, d2] with
      | some y, some m, some d => mkDate y m d
      | _, _, _ => none
    else none
  | _ => none

/-! ## State: the persisted index and the artifacts -/

/-- The mapping held by `<gene>_date_lookup.json`: identifier to date string.  The entries
are visited in list order where the source ranges over the Go map. -/
abbrev Index := List (GoString × GoString)

/-- Reading a Go map, `m[k]`. -/
def Index.get (m : Index) (k : GoString) : Option GoString :=
  match m with
  | [] => none
  | (k1, v1) :: rest => if k1 = k then some v1 else Index.get rest k

/-- The Go map assignment `m[k] = v`. -/
def Index.set (m : Index) (k v : GoString) : Index :=
  match m with
  | [] => [(k, v)]
  | (k1, v1) :: rest => if k1 = k then (k, v) :: rest else (k1, v1) :: Index.set rest k v

/-- The part of the file system the program touches.  `index` is the mapping persisted in
the lookup file, `none` when there is no such file (or it holds no JSON yet); `files` is
the log of output artifacts created, name and bytes, oldest first. -/
structure World where
  index : Option Index
  files : List (GoString × GoString)
  deriving DecidableEq

/-- Outcome of one `fileLock.TryLock()`: `(true, nil)`, `(false, nil)`, `(false, err)`. -/
inductive LockAttempt where
  | locked
  | busy
  | failed
  deriving DecidableEq

/-- What the environment decides: the outcome of the n-th lock attempt, whether opening
the lookup file fails for a reason other than its absence, whether `os.WriteFile`
succeeds, and whether `os.Create` succeeds for a file name. -/
structure Env where
  lock : Nat → LockAttempt
  openOk : Bool
  writeOk : Bool
  createOk : GoString → Bool

/-- How a call ends: `return nil`, `return err` with a non-nil error, or a run-time
panic. -/
inductive Status where
  | ok
  | err
  | panicked
  deriving DecidableEq, Repr

/-! ## `determineStartingPoint` -/

/-- First loop of `determineStartingPoint`: the nearest date before `t`, starting from the
zero `Time`. -/
def nearestPrior (t : Time) (dateLookup : Index) : Time :=
  dateLookup.foldl
    (fun nearestDate kv =>
      match parseDMY kv.2 with
      | none => nearestDate
      | some dateValue =>
        if dateValue.Before t && (nearestDate.IsZero || dateValue.After nearestDate) then dateValue
        else nearestDate)
    Time.zero

/-- Second loop of `determineStartingPoint`; `none` is the panic of `key[3:]` on a key
shorter than three bytes. -/
def collectIntegers (nearestDate : Time) : Index → List Int → Option (List Int)
  | [], allIntegers => some allIntegers
  | (key, value) :: rest, allIntegers =>
    match parseDMY value with
    | none => collectIntegers nearestDate rest allIntegers
    | some dateValue =>
      if dateValue.Equal nearestDate then
        if byteLen key < 3 then none
        else
          match Atoi (dropBytes 3 key) with
          | some intValue => collectIntegers nearestDate rest (allIntegers ++ [intValue])
          | none => collectIntegers nearestDate rest allIntegers
      else collectIntegers nearestDate rest allIntegers

/-- The function `determineStartingPoint` of `downloadIPD.go`.  `store` is the content of
the lookup file of the gene (`none`: the file does not exist); a cutoff that does not
parse is reported and leaves `t` the zero `Time`. -/
def determineStartingPoint (store : Option Index) (date : GoString) : Option (List Int) :=
  let t := (parseYMD date).getD Time.zero
  match store with
  | none => some []
  | some dateLookup =>
    let nearestDate := nearestPrior t dateLookup
    if !nearestDate.IsZero then
      (collectIntegers nearestDate dateLookup []).map sortInts
    else some (sortInts [])

/-! ## `buildDateLookup` -/

/-- The retry loop around `TryLock`: `remaining` is `maxRetries - retryCount`.  The result
is `locked` when the lock was obtained, `failed` when an attempt returned an error, `busy`
when the retries ran out. -/
def lockLoop (lock : Nat → LockAttempt) : Nat → Nat → LockAttempt
  | 0, _ => LockAttempt.busy
  | remaining + 1, retryCount =>
    match lock retryCount with
    | LockAttempt.locked => LockAttempt.locked
    | LockAttempt.failed => LockAttempt.failed
    | LockAttempt.busy => lockLoop lock remaining (retryCount + 1)

/-- The function `buildDateLookup` of `downloadIPD.go`: lock, read the mapping (empty when
there is none), assign the key, write the whole mapping back. -/
def buildDateLookup (env : Env) (id dateStr : GoString) (w : World) : Status × World :=
  match lockLoop env.lock 5 0 with
  | LockAttempt.locked =>
    if !env.openOk then (Status.err, w)
    else
      let dateMap : Index := w.index.getD []
      let dateMap := Index.set dateMap id dateStr
      if !env.writeOk then (Status.err, w)
      else (Status.ok, { w with index := some dateMap })
  | _ => (Status.err, w)

/-! ## `defineUrls` -/

/-- The loop `for i := maxInteger + 1; i <= maxCount; i++` of `defineUrls`, appending `i`
to `startingIDs`; the increment wraps.  `none`: the loop has not finished within `fuel`
iterations. -/
def appendMissing : Nat → Int → Int → List Int → Option (List Int)
  | 0, _, _, _ => none
  | fuel + 1, i, maxCount, startingIDs =>
    if i ≤ maxCount then appendMissing fuel (wrapInt64 (i + 1)) maxCount (startingIDs ++ [i])
    else some startingIDs

/-- The value of `maxInteger` once the first loop and the test against `math.MinInt64` of
`defineUrls` have run. -/
def maxIntegerOf (startingIDs : List Int) : Int :=
  let maxInteger := startingIDs.foldl (fun maxInteger num => if num > maxInteger then num else maxInteger) minInt64
  if maxInteger = minInt64 then 0 else maxInteger

/-- Whether `defineUrls` knows the database code. -/
def supportedGene (gene : GoString) : Bool :=
  gene = "MHC".toList || gene = "KIR".toList || gene = "HLA".toList ||
    gene = "MHCPRO".toList || gene = "KIRPRO".toList

/-- The endpoint of a database code, `baseURL` in `defineUrls`. -/
def baseURLOf (gene : GoString) : GoString :=
  if gene = "MHC".toList then "https://www.ebi.ac.uk/Tools/dbfetch/dbfetch?db=ipdmhc;id=".toList
  else if gene = "KIR".toList then "https://www.ebi.ac.uk/Tools/dbfetch/dbfetch?db=ipdnhkir;id=".toList
  else if gene = "HLA".toList then "https://www.ebi.ac.uk/Tools/dbfetch/dbfetch?db=imgthla;id=".toList
  else if gene = "MHCPRO".toList then "https://www.ebi.ac.uk/Tools/dbfetch/dbfetch?db=ipdmhcpro;id=".toList
  else if gene = "KIRPRO".toList then "https://www.ebi.ac.uk/Tools/dbfetch/dbfetch?db=ipdnhkirpro;id=".toList
  else []

/-- The identifier letters of a database code in `defineUrls`: `NHP`, or `HLA` for the
code `HLA`. -/
def idLetters (gene : GoString) : GoString :=
  if gene = "HLA".toList then "HLA".toList else "NHP".toList

/-- The identifier built in the last loop of `defineUrls`:
`fmt.Sprintf("%s%05d", prefix, i)`. -/
def idOf (gene : GoString) (i : Int) : GoString := idLetters gene ++ Sprintf05d i

/-- The URL built in the last loop of `defineUrls`: `baseURL + id + ";style=raw"`. -/
def urlOf (gene : GoString) (i : Int) : GoString :=
  baseURLOf gene ++ idOf gene i ++ ";style=raw".toList

/-- The function `defineUrls` of `downloadIPD.go`: the URLs and the identifiers, in step.
`none`: the appending loop has not finished within `fuel` iterations. -/
def defineUrls (fuel : Nat) (startingIDs : List Int) (maxCount : Int) (gene : GoString) :
    Option (List GoString × List GoString) :=
  let maxInteger := maxIntegerOf startingIDs
  match appendMissing fuel (wrapInt64 (maxInteger + 1)) maxCount startingIDs with
  | none => none
  | some startingIDs =>
    if supportedGene gene then
      some (startingIDs.foldl
        (fun (acc : List GoString × List GoString) i => (acc.1 ++ [urlOf gene i], acc.2 ++ [idOf gene i]))
        ([], []))
    else some ([], [])

/-! ## `checkAndSaveFile` and `downloadFile` -/

/-- The helper `dropCR` of `bufio.ScanLines`. -/
def dropCR (line : GoString) : GoString :=
  if line.getLast? = some '\r' then line.dropLast else line

/-- Worker of `rawLines`: `cur` is the line being read. -/
def rawLinesAux : GoString → GoString → List GoString
  | cur, [] => if cur.isEmpty then [] else [cur]
  | cur, c :: cs =>
    if c = '\n' then cur :: rawLinesAux [] cs else rawLinesAux (cur ++ [c]) cs

/-- The lines of a body as `bufio.ScanLines` cuts them, before a carriage return is
dropped: the text is cut at each line feed, and a last line without a line feed is a line
if it is not empty. -/
def rawLines (body : GoString) : List GoString := rawLinesAux [] body

/-- The constant `bufio.MaxScanTokenSize`, the size of the buffer of `bufio.NewScanner`. -/
def maxScanTokenSize : Nat := 65536

/-- Whether the scanner can return a line: the line, its carriage return counted and its
line feed not, has fewer than `bufio.MaxScanTokenSize` bytes.  On a longer line `Scan`
returns false with `bufio.ErrTooLong`. -/
def fitsToken (line : GoString) : Bool := decide (byteLen line < maxScanTokenSize)

/-- The tokens a `bufio.Scanner` yields with its default split function and buffer: the
lines of the body up to the first line that does not fit the buffer, which ends the scan
(that line and everything after it are dropped; `checkAndSaveFile` of `downloadIPD.go`
never reads `scanner.Err()`), one trailing carriage return dropped from each. -/
def ScanLines (body : GoString) : List GoString :=
  ((rawLines body).takeWhile fitsToken).map dropCR

/-- The variables of the scanning loop of `checkAndSaveFile`. -/
structure ScanState where
  idLine : GoString
  dateLine : GoString
  fileContentBuffer : GoString
  deriving DecidableEq

/-- The scanning loop of `checkAndSaveFile`, one iteration per line. -/
def scanLoop : List GoString → ScanState → ScanState
  | [], st => st
  | line :: rest, st =>
    let buf := st.fileContentBuffer ++ (line ++ ['\n'])
    if HasPrefix line "ERROR".toList then
      { idLine := line, dateLine := line, fileContentBuffer := buf }
    else
      let idLine :=
        if HasPrefix line "ID".toList then line
        else if HasPrefix line ">".toList then line
        else st.idLine
      let dateLine := if HasPrefix line "DT".toList then line else st.dateLine
      scanLoop rest { idLine := idLine, dateLine := dateLine, fileContentBuffer := buf }

/-- The state of `checkAndSaveFile` when its scanning loop ends. -/
def scanBody (fileContent : GoString) : ScanState :=
  scanLoop (ScanLines fileContent) { idLine := [], dateLine := [], fileContentBuffer := [] }

/-- The not-found answer of the server. -/
def notFound : GoString := "ERROR 12 No entries found.".toList

/-- The pair `os.Create` then `io.Copy`: the artifact is written when it can be created. -/
def createAndCopy (env : Env) (name bytes : GoString) (w : World) : Status × World :=
  if env.createOk name then (Status.ok, { w with files := w.files ++ [(name, bytes)] })
  else (Status.err, w)

/-- The date token of `checkAndSaveFile`: `strings.Fields` of the date line, trimmed of
`DT` and of spaces, at index 0; `none` is the panic of that index on an empty slice. -/
def dateInFileStrOf (dateLine : GoString) : Option GoString :=
  index? (Fields (TrimSpace (TrimPrefix dateLine "DT".toList))) 0

/-- The identifier of `checkAndSaveFile`: the identifier line is trimmed of `ID` and of
spaces, split at semicolons, and its piece at index 0 is trimmed of spaces. -/
def idInFileStrOf (idLine : GoString) : Option GoString :=
  (index? (Split (TrimSpace (TrimPrefix idLine "ID".toList)) ';') 0).map TrimSpace

/-- The identifier of a sequence-header line in `checkAndSaveFile`: the line is split at
spaces, its piece at index 0 is split at colons, and the piece at index 1 is taken; `none`
is the panic of an index out of range. -/
def fastaIdOf (idLine : GoString) : Option GoString :=
  match index? (Split idLine ' ') 0 with
  | none => none
  | some tmp_str => index? (Split tmp_str ':') 1

/-- The name `fmt.Sprintf("%s.embl", idInFileStr)` of a flat-file artifact. -/
def emblName (idInFileStr : GoString) : GoString := idInFileStr ++ ".embl".toList

/-- The name `fmt.Sprintf("%s.fasta", idInFileStr)` of a sequence-header artifact. -/
def fastaName (idInFileStr : GoString) : GoString := idInFileStr ++ ".fasta".toList

/-- The function `checkAndSaveFile` of `downloadIPD.go`. -/
def checkAndSaveFile (env : Env) (id : GoString) (lookupIDs : List GoString)
    (fileContent : GoString) (dateStr : GoString) (w : World) : Status × World :=
  match parseYMD dateStr with
  | none => (Status.err, w)
  | some givenDate =>
    let st := scanBody fileContent
    if st.idLine = notFound then (Status.ok, w)
    else if HasPrefix st.idLine ">".toList then
      match fastaIdOf st.idLine with
      | none => (Status.panicked, w)
      | some idInFileStr =>
        createAndCopy env (fastaName idInFileStr) st.fileContentBuffer w
    else
      match dateInFileStrOf st.dateLine with
      | none => (Status.panicked, w)
      | some dateInFileStr =>
        match parseDMY dateInFileStr with
        | none => (Status.err, w)
        | some dateInFile =>
          match idInFileStrOf st.idLine with
          | none => (Status.panicked, w)
          | some idInFileStr =>
            let outputFilename := emblName idInFileStr
            let found := lookupIDs.contains idInFileStr
            let upsert :=
              if !found then buildDateLookup env idInFileStr dateInFileStr w else (Status.ok, w)
            if upsert.1 ≠ Status.ok then (upsert.1, upsert.2)
            else if dateInFile.After givenDate then
              createAndCopy env outputFilename st.fileContentBuffer upsert.2
            else (Status.ok, upsert.2)

/-- The function `downloadFile` of `downloadIPD.go` once the retry loop around `http.Get`
has ended: `resp` is the body of the answer with status 200, `none` when the three
attempts left an error or another status code. -/
def downloadFile (env : Env) (resp : Option GoString) (url id : GoString)
    (lookup_records : List Int) (dateStr : GoString) (w : World) : Status × World :=
  match resp with
  | none => (Status.err, w)
  | some body =>
    let allIDs : List GoString :=
      if lookup_records.length > 0 then
        lookup_records.map (fun i =>
          (if Contains url "imgthla".toList then "HLA".toList else "NHP".toList) ++ Sprintf05d i)
      else []
    checkAndSaveFile env id allIDs body dateStr w

/-! ## `checkAndSaveFile` of `download-ipd-alleles.go`

The earlier program of the repository has no index and no sequence-header records. -/

namespace Alleles

/-- The scanning loop of `checkAndSaveFile` in `download-ipd-alleles.go`. -/
def scanLoop : List GoString → ScanState → ScanState
  | [], st => st
  | line :: rest, st =>
    let buf := st.fileContentBuffer ++ (line ++ ['\n'])
    if HasPrefix line "ERROR".toList then
      { idLine := line, dateLine := line, fileContentBuffer := buf }
    else
      let idLine := if HasPrefix line "ID".toList then line else st.idLine
      let dateLine := if HasPrefix line "DT".toList then line else st.dateLine
      scanLoop rest { idLine := idLine, dateLine := dateLine, fileContentBuffer := buf }

/-- The state of that `checkAndSaveFile` when its scanning loop ends. -/
def scanBody (fileContent : GoString) : ScanState :=
  scanLoop (ScanLines fileContent) { idLine := [], dateLine := [], fileContentBuffer := [] }

/-- The function `checkAndSaveFile` of `download-ipd-alleles.go`. -/
def checkAndSaveFile (env : Env) (fileContent : GoString) (dateStr : GoString) (w : World) :
    Status × World :=
  match parseYMD dateStr with
  | none => (Status.err, w)
  | some givenDate =>
    let st := scanBody fileContent
    if st.idLine ≠ notFound then
      match dateInFileStrOf st.dateLine with
      | none => (Status.panicked, w)
      | some dateInFileStr =>
        match parseDMY dateInFileStr with
        | none => (Status.err, w)
        | some dateInFile =>
          match idInFileStrOf st.idLine with
          | none => (Status.panicked, w)
          | some idInFileStr =>
            if dateInFile.After givenDate then
              createAndCopy env (emblName idInFileStr) st.fileContentBuffer w
            else (Status.ok, w)
    else (Status.ok, w)

end Alleles

/-! ## The Range Planner in the words of the specification -/

/-- The latest of a list of dates, `none` for the empty list. -/
def latestOf (ds : List Time) : Option Time :=
  ds.foldl
    (fun (best : Option Time) d =>
      match best with
      | none => some d
      | some b => if b.Before d then some d else some b)
    none

/-- Follows the words of the specification, not the code (Range Planner): among all index
entries, the maximum release date strictly before the cutoff; the integers (the digits
after the three-letter prefix) of the identifiers whose stored date equals that maximum,
sorted ascending; empty when no entry qualifies. -/
def boundarySetSpec (index : Index) (cutoff : Time) : List Int :=
  match latestOf ((index.filterMap (fun kv => parseDMY kv.2)).filter (fun d => d.Before cutoff)) with
  | none => []
  | some latest =>
    sortInts (index.filterMap
      (fun kv => if parseDMY kv.2 = some latest then Atoi (dropBytes 3 kv.1) else none))

/-- The integers `lo, lo + 1, ..., hi`, empty when `hi < lo`. -/
def intRange (lo hi : Int) : List Int :=
  (List.range (hi + 1 - lo).toNat).map (fun (k : Nat) => lo + (k : Int))

/-- The lines of a body as `checkAndSaveFile` buffers them: each followed by one line
feed. -/
def relined (lines : List GoString) : GoString :=
  (lines.map (fun line => line ++ ['\n'])).flatten

/-! ## Concrete environments and inputs -/

/-- An environment in which every lock attempt and every file operation succeeds. -/
def calmEnv : Env :=
  { lock := fun _ => LockAttempt.locked, openOk := true, writeOk := true, createOk := fun _ => true }

/-- An environment in which the lookup file stays locked by another worker. -/
def contendedEnv : Env :=
  { lock := fun _ => LockAttempt.busy, openOk := true, writeOk := true, createOk := fun _ => true }

/-- The index of the example of the specification. -/
def exampleIndex : Index :=
  [("NHP00010".toList, "01/02/2020".toList), ("NHP00011".toList, "01/02/2020".toList),
   ("NHP00005".toList, "01/01/2019".toList)]

/-- A flat-file record released on 1 January 2021. -/
def emblBody : GoString :=
  "ID   NHP00001; SV 1; standard; DNA; 1098 BP.\nXX\nDT   01/01/2021 (Rel. 3.7.0.0, current release)\nXX\n//\n".toList

/-! # Theorems -/

/-! ## Lemmas on the index mapping and on the scanning loop -/

theorem Index.get_set (m : Index) (k v k2 : GoString) :
    Index.get (Index.set m k v) k2 = if k2 = k then some v else Index.get m k2 := by
  induction m with
  | nil =>
    by_cases h : k = k2
    · subst h
      simp [Index.set, Index.get]
    · have h2 : ¬ k2 = k := fun e => h e.symm
      simp [Index.set, Index.get, h, h2]
  | cons p rest ih =>
    obtain ⟨k1, v1⟩ := p
    by_cases h1 : k1 = k
    · subst h1
      by_cases h : k1 = k2
      · subst h
        simp [Index.set, Index.get]
      · have h2 : ¬ k2 = k1 := fun e => h e.symm
        simp [Index.set, Index.get, h, h2]
    · by_cases h3 : k1 = k2
      · subst h3
        simp [Index.set, Index.get, h1]
      · simp [Index.set, Index.get, h1, h3, ih]

theorem scanLoop_stops_at_notFound (pre post : List GoString) (st : ScanState)
    (hpre : ∀ l ∈ pre, HasPrefix l "ERROR".toList = false) :
    (scanLoop (pre ++ notFound :: post) st).idLine = notFound := by
  induction pre generalizing st with
  | nil =>
    have h : HasPrefix notFound "ERROR".toList = true := by decide
    simp only [List.nil_append, scanLoop, h, if_true]
  | cons l pre ih =>
    have hl : HasPrefix l "ERROR".toList = false := hpre l (List.mem_cons_self _ _)
    have hrest : ∀ x ∈ pre, HasPrefix x "ERROR".toList = false :=
      fun x hx => hpre x (List.mem_cons_of_mem _ hx)
    simp only [List.cons_append, scanLoop, hl, Bool.false_eq_true, if_false]
    exact ih _ hrest

/-! ## `determineStartingPoint` against the specification, away from the zero date -/

theorem nearestPrior_latest (t : Time) (m : Index) (nearest : Time) (best : Option Time)
    (hR : (best = none ∧ nearest = Time.zero) ∨ (best = some nearest ∧ nearest ≠ Time.zero))
    (hz : ∀ kv ∈ m, parseDMY kv.2 ≠ some Time.zero) :
    (List.foldl
        (fun (best : Option Time) d =>
          match best with
          | none => some d
          | some b => if b.Before d then some d else some b)
        best ((m.filterMap (fun kv => parseDMY kv.2)).filter (fun d => d.Before t)) = none ∧
      List.foldl
        (fun nearestDate (kv : GoString × GoString) =>
          match parseDMY kv.2 with
          | none => nearestDate
          | some dateValue =>
            if dateValue.Before t && (nearestDate.IsZero || dateValue.After nearestDate) then dateValue
            else nearestDate)
        nearest m = Time.zero) ∨
    (List.foldl
        (fun (best : Option Time) d =>
          match best with
          | none => some d
          | some b => if b.Before d then some d else some b)
        best ((m.filterMap (fun kv => parseDMY kv.2)).filter (fun d => d.Before t)) =
      some (List.foldl
        (fun nearestDate (kv : GoString × GoString) =>
          match parseDMY kv.2 with
          | none => nearestDate
          | some dateValue =>
            if dateValue.Before t && (nearestDate.IsZero || dateValue.After nearestDate) then dateValue
            else nearestDate)
        nearest m) ∧
      List.foldl
        (fun nearestDate (kv : GoString × GoString) =>
          match parseDMY kv.2 with
          | none => nearestDate
          | some dateValue =>
            if dateValue.Before t && (nearestDate.IsZero || dateValue.After nearestDate) then dateValue
            else nearestDate)
        nearest m ≠ Time.zero) := by
  induction m generalizing nearest best with
  | nil => simpa using hR
  | cons kv m ih =>
    have hz2 : ∀ x ∈ m, parseDMY x.2 ≠ some Time.zero := fun x hx => hz x (List.mem_cons_of_mem _ hx)
    cases hp : parseDMY kv.2 with
    | none =>
      simp only [List.foldl_cons, List.filterMap_cons, hp]
      exact ih nearest best hR hz2
    | some dv =>
      have hdv : dv ≠ Time.zero := by
        intro e
        exact hz kv (List.mem_cons_self _ _) (by rw [hp, e])
      simp only [List.foldl_cons, List.filterMap_cons, hp, List.filter_cons]
      by_cases hb : dv.Before t = true
      · simp only [hb, if_true, List.foldl_cons, Bool.true_and]
        rcases hR with ⟨h1, h2⟩ | ⟨h1, h2⟩
        · subst h1 h2
          have hzz : Time.zero.IsZero = true := by decide
          simp only [hzz, Bool.true_or, if_true]
          exact ih dv (some dv) (Or.inr ⟨rfl, hdv⟩) hz2
        · subst h1
          have hnz : nearest.IsZero = false := by
            simp [Time.IsZero, h2]
          simp only [hnz, Bool.false_or, Time.After]
          by_cases ha : nearest.Before dv = true
          · simp only [ha, if_true]
            exact ih dv (some dv) (Or.inr ⟨rfl, hdv⟩) hz2
          · simp only [ha, if_false, Bool.false_eq_true]
            exact ih nearest (some nearest) (Or.inr ⟨rfl, h2⟩) hz2
      · simp only [hb, if_false, Bool.false_eq_true, Bool.false_and]
        exact ih nearest best hR hz2

theorem collectIntegers_eq (nearest : Time) (m : Index) (acc : List Int)
    (hkeys : ∀ kv ∈ m, 3 ≤ byteLen kv.1) :
    collectIntegers nearest m acc
      = some (acc ++ m.filterMap
          (fun kv => if parseDMY kv.2 = some nearest then Atoi (dropBytes 3 kv.1) else none)) := by
  induction m generalizing acc with
  | nil => simp [collectIntegers]
  | cons kv m ih =>
    obtain ⟨key, value⟩ := kv
    have hk : ¬ byteLen key < 3 := by
      have := hkeys (key, value) (List.mem_cons_self _ _)
      simp only at this
      omega
    have hrest : ∀ x ∈ m, 3 ≤ byteLen x.1 := fun x hx => hkeys x (List.mem_cons_of_mem _ hx)
    unfold collectIntegers
    cases hp : parseDMY value with
    | none =>
      simp only [List.filterMap_cons, hp]
      rw [ih acc hrest]
      simp
    | some dv =>
      by_cases he : dv = nearest
      · subst he
        have hE : dv.Equal dv = true := by simp [Time.Equal]
        simp only [hE, if_true, hk, if_false, List.filterMap_cons, hp]
        cases ha : Atoi (dropBytes 3 key) with
        | none =>
          simp only
          rw [ih acc hrest]
        | some i =>
          simp only
          rw [ih (acc ++ [i]) hrest]
          simp
      · have hE : dv.Equal nearest = false := by simp [Time.Equal, he]
        have hne : ¬ some dv = some nearest := by
          intro e
          exact he (Option.some.inj e)
        simp only [hE, Bool.false_eq_true, if_false, List.filterMap_cons, hp, hne]
        rw [ih acc hrest]

/-- Away from the zero date `determineStartingPoint` is the Range Planner of the
specification: for a valid cutoff and an index whose keys have at least three bytes and
none of whose dates is `01/01/0001`, it returns the boundary set of the specification,
which is sorted ascending. -/
theorem determineStartingPoint_spec (m : Index) (date : GoString) (t : Time)
    (ht : parseYMD date = some t)
    (hkeys : ∀ kv ∈ m, 3 ≤ byteLen kv.1)
    (hz : ∀ kv ∈ m, parseDMY kv.2 ≠ some Time.zero) :
    determineStartingPoint (some m) date = some (boundarySetSpec m t) ∧
    (boundarySetSpec m t).Sorted (fun a b => a ≤ b) := by
  constructor
  · unfold determineStartingPoint boundarySetSpec latestOf nearestPrior
    simp only [ht, Option.getD_some]
    rcases nearestPrior_latest t m Time.zero none (Or.inl ⟨rfl, rfl⟩) hz with ⟨h1, h2⟩ | ⟨h1, h2⟩
    · rw [h1, h2]
      rfl
    · rw [h1]
      have hnz : (List.foldl
          (fun nearestDate (kv : GoString × GoString) =>
            match parseDMY kv.2 with
            | none => nearestDate
            | some dateValue =>
              if dateValue.Before t && (nearestDate.IsZero || dateValue.After nearestDate) then dateValue
              else nearestDate)
          Time.zero m).IsZero = false := decide_eq_false h2
      simp only [hnz, Bool.not_false, if_true]
      rw [collectIntegers_eq _ m [] hkeys]
      simp
  · unfold boundarySetSpec
    split
    · exact List.sorted_nil
    · exact List.sorted_insertionSort _ _

/-- The empty cases of the Range Planner: without a store file, with an empty mapping, or
with every stored date on or after the cutoff, `determineStartingPoint` returns the empty
list. -/
theorem determineStartingPoint_empty (m : Index) (date : GoString)
    (h : ∀ kv ∈ m, ∀ d, parseDMY kv.2 = some d →
      d.Before ((parseYMD date).getD Time.zero) = false) :
    determineStartingPoint none date = some [] ∧
    determineStartingPoint (some []) date = some [] ∧
    determineStartingPoint (some m) date = some [] := by
  have key : ∀ (l : Index), (∀ kv ∈ l, ∀ d, parseDMY kv.2 = some d →
      d.Before ((parseYMD date).getD Time.zero) = false) →
      nearestPrior ((parseYMD date).getD Time.zero) l = Time.zero := by
    intro l hl
    unfold nearestPrior
    induction l with
    | nil => rfl
    | cons kv l ih =>
      have hrest := ih (fun x hx => hl x (List.mem_cons_of_mem _ hx))
      simp only [List.foldl_cons]
      cases hp : parseDMY kv.2 with
      | none => exact hrest
      | some dv =>
        have := hl kv (List.mem_cons_self _ _) dv hp
        simp only [this, Bool.false_and, Bool.false_eq_true, if_false]
        exact hrest
  refine ⟨rfl, ?_, ?_⟩
  · unfold determineStartingPoint
    simp only [key [] (by simp)]
    rfl
  · unfold determineStartingPoint
    simp only [key m h]
    rfl

/-! ## C1: the zero date is taken for "no date found" -/

/-- C1, at the index that holds the one entry `NHP00001` dated `01/01/0001` with the cutoff
`2020-03-01`: the stored date is strictly before the cutoff and is the maximum of the
stored dates, so the boundary set of the specification is `[1]`; `determineStartingPoint`
returns the empty list, because the date it has found is the zero `Time`, which it reads
as "nothing found".  On the example of the specification both give `[10, 11]`. -/
theorem determineStartingPoint_zero_date :
    parseDMY "01/01/0001".toList = some Time.zero ∧
    parseYMD "2020-03-01".toList = some ⟨2020, 3, 1⟩ ∧
    Time.Before Time.zero ⟨2020, 3, 1⟩ = true ∧
    boundarySetSpec [("NHP00001".toList, "01/01/0001".toList)] ⟨2020, 3, 1⟩ = [1] ∧
    determineStartingPoint (some [("NHP00001".toList, "01/01/0001".toList)]) "2020-03-01".toList
      = some [] ∧
    boundarySetSpec exampleIndex ⟨2020, 3, 1⟩ = [10, 11] ∧
    determineStartingPoint (some exampleIndex) "2020-03-01".toList = some [10, 11] := by
  decide

/-! ## `defineUrls`: the two loops in closed form -/

theorem jobs_foldl (gene : GoString) (jobs : List Int) (acc : List GoString × List GoString) :
    jobs.foldl
        (fun (acc : List GoString × List GoString) i => (acc.1 ++ [urlOf gene i], acc.2 ++ [idOf gene i]))
        acc
      = (acc.1 ++ jobs.map (urlOf gene), acc.2 ++ jobs.map (idOf gene)) := by
  induction jobs generalizing acc with
  | nil => simp
  | cons i jobs ih => simp [ih]

theorem defineUrls_eq (fuel : Nat) (startingIDs : List Int) (maxCount : Int) (gene : GoString) :
    defineUrls fuel startingIDs maxCount gene
      = (appendMissing fuel (wrapInt64 (maxIntegerOf startingIDs + 1)) maxCount startingIDs).map
          (fun jobs =>
            if supportedGene gene then (jobs.map (urlOf gene), jobs.map (idOf gene)) else ([], [])) := by
  unfold defineUrls
  dsimp only
  generalize appendMissing fuel (wrapInt64 (maxIntegerOf startingIDs + 1)) maxCount startingIDs = r
  cases r with
  | none => rfl
  | some jobs =>
    by_cases hg : supportedGene gene = true
    · simp [hg, jobs_foldl]
    · simp [hg]

theorem appendMissing_length (fuel : Nat) (i maxCount : Int) (ids jobs : List Int)
    (h : appendMissing fuel i maxCount ids = some jobs) : ids.length ≤ jobs.length := by
  induction fuel generalizing i ids with
  | zero => simp [appendMissing] at h
  | succ fuel ih =>
    unfold appendMissing at h
    by_cases hi : i ≤ maxCount
    · rw [if_pos hi] at h
      have := ih _ _ h
      simp at this
      omega
    · rw [if_neg hi] at h
      cases h
      exact le_refl _

theorem wrapInt64_of_range (x : Int) (h1 : minInt64 ≤ x) (h2 : x ≤ maxInt64) : wrapInt64 x = x := by
  unfold wrapInt64
  unfold minInt64 at h1
  unfold maxInt64 at h2
  omega

theorem intRange_cons (lo hi : Int) (h : lo ≤ hi) : intRange lo hi = lo :: intRange (lo + 1) hi := by
  unfold intRange
  have e : (hi + 1 - lo).toNat = (hi + 1 - (lo + 1)).toNat + 1 := by omega
  rw [e, List.range_succ_eq_map]
  simp [List.map_map, Function.comp_def]
  intro a _
  omega

theorem intRange_empty (lo hi : Int) (h : hi < lo) : intRange lo hi = [] := by
  unfold intRange
  have e : (hi + 1 - lo).toNat = 0 := by omega
  rw [e]
  rfl

theorem appendMissing_in_range (fuel : Nat) (i maxCount : Int) (ids : List Int)
    (hi : minInt64 ≤ i) (hN : maxCount < maxInt64) (hfuel : (maxCount + 1 - i).toNat < fuel) :
    appendMissing fuel i maxCount ids = some (ids ++ intRange i maxCount) := by
  induction fuel generalizing i ids with
  | zero => omega
  | succ fuel ih =>
    unfold appendMissing
    by_cases hle : i ≤ maxCount
    · rw [if_pos hle]
      have hw : wrapInt64 (i + 1) = i + 1 := by
        apply wrapInt64_of_range
        · omega
        · omega
      rw [hw, ih (i + 1) (ids ++ [i]) (by omega) (by omega), intRange_cons i maxCount hle]
      simp
    · rw [if_neg hle, intRange_empty i maxCount (by omega)]
      simp

theorem foldl_max_ge (l : List Int) (m : Int) :
    m ≤ l.foldl (fun maxInteger num => if num > maxInteger then num else maxInteger) m ∧
    (∀ b ∈ l, b ≤ l.foldl (fun maxInteger num => if num > maxInteger then num else maxInteger) m) ∧
    (l.foldl (fun maxInteger num => if num > maxInteger then num else maxInteger) m = m ∨
      l.foldl (fun maxInteger num => if num > maxInteger then num else maxInteger) m ∈ l) := by
  induction l generalizing m with
  | nil => simp
  | cons a l ih =>
    simp only [List.foldl_cons, List.mem_cons]
    by_cases h : a > m
    · rw [if_pos h]
      obtain ⟨h1, h2, h3⟩ := ih a
      refine ⟨by omega, ?_, ?_⟩
      · intro b hb
        rcases hb with rfl | hb
        · exact h1
        · exact h2 b hb
      · rcases h3 with h3 | h3
        · right; left; exact h3
        · right; right; exact h3
    · rw [if_neg h]
      obtain ⟨h1, h2, h3⟩ := ih m
      refine ⟨h1, ?_, ?_⟩
      · intro b hb
        rcases hb with rfl | hb
        · omega
        · exact h2 b hb
      · rcases h3 with h3 | h3
        · left; exact h3
        · right; right; exact h3

theorem maxIntegerOf_nil : maxIntegerOf [] = 0 := by decide

theorem maxIntegerOf_max (B : List Int) (hne : B ≠ []) (hB : ∀ b ∈ B, minInt64 < b) :
    maxIntegerOf B ∈ B ∧ ∀ b ∈ B, b ≤ maxIntegerOf B := by
  obtain ⟨h1, h2, h3⟩ := foldl_max_ge B minInt64
  obtain ⟨b0, hb0⟩ := List.exists_mem_of_ne_nil B hne
  have hgt : minInt64 <
      B.foldl (fun maxInteger num => if num > maxInteger then num else maxInteger) minInt64 :=
    lt_of_lt_of_le (hB b0 hb0) (h2 b0 hb0)
  have hne2 : ¬ B.foldl (fun maxInteger num => if num > maxInteger then num else maxInteger) minInt64
      = minInt64 := by omega
  unfold maxIntegerOf
  simp only [hne2, if_false]
  refine ⟨?_, h2⟩
  rcases h3 with h3 | h3
  · exact absurd h3 hne2
  · exact h3

/-- Away from the two ends of the 64-bit range `defineUrls` does what the Job Generator of
the specification says: with every integer of `B` strictly between `math.MinInt64` and
`math.MaxInt64` and `N` below `math.MaxInt64`, `maxInteger` is 0 for the empty `B` and the
maximum of `B` otherwise, the loop finishes, and the jobs are those of `B` followed by
`maxInteger + 1, ..., N`, in that order, one URL and one identifier per integer, for a
supported code; for any other code both lists are empty. -/
theorem defineUrls_in_range (B : List Int) (N : Int) (gene : GoString)
    (hB : ∀ b ∈ B, minInt64 < b ∧ b < maxInt64) (hN : N < maxInt64) :
    (B = [] → maxIntegerOf B = 0) ∧
    (B ≠ [] → maxIntegerOf B ∈ B ∧ ∀ b ∈ B, b ≤ maxIntegerOf B) ∧
    ∀ fuel, (N - maxIntegerOf B).toNat < fuel →
      defineUrls fuel B N gene
        = some (if supportedGene gene then
            ((B ++ intRange (maxIntegerOf B + 1) N).map (urlOf gene),
             (B ++ intRange (maxIntegerOf B + 1) N).map (idOf gene))
          else ([], [])) := by
  have hmax : minInt64 < maxIntegerOf B + 1 ∧ maxIntegerOf B < maxInt64 := by
    by_cases hne : B = []
    · subst hne
      rw [maxIntegerOf_nil]
      decide
    · obtain ⟨hm, _⟩ := maxIntegerOf_max B hne (fun b hb => (hB b hb).1)
      have := hB _ hm
      omega
  refine ⟨fun h => by rw [h]; exact maxIntegerOf_nil,
    fun hne => maxIntegerOf_max B hne (fun b hb => (hB b hb).1), ?_⟩
  intro fuel hfuel
  have hw : wrapInt64 (maxIntegerOf B + 1) = maxIntegerOf B + 1 :=
    wrapInt64_of_range _ (by omega) (by omega)
  rw [defineUrls_eq, hw, appendMissing_in_range fuel _ N B (by omega) hN (by omega)]
  rfl

/-- The example of the specification: the boundary set `[10, 11]` and the count 13 give
the jobs 10, 11, 12, 13; an empty boundary set starts at 1; an unknown code gives no job. -/
theorem defineUrls_examples :
    (defineUrls 3 [10, 11] 13 "MHC".toList).map (fun p => p.2)
      = some ["NHP00010".toList, "NHP00011".toList, "NHP00012".toList, "NHP00013".toList] ∧
    defineUrls 3 [] 2 "HLA".toList
      = some (["https://www.ebi.ac.uk/Tools/dbfetch/dbfetch?db=imgthla;id=HLA00001;style=raw".toList,
               "https://www.ebi.ac.uk/Tools/dbfetch/dbfetch?db=imgthla;id=HLA00002;style=raw".toList],
              ["HLA00001".toList, "HLA00002".toList]) ∧
    defineUrls 3 [10, 11] 13 "DRB".toList = some ([], []) := by
  decide

/-! ## C2: the sentinel of the empty list and the overflow of the loop counter -/

/-- C2, at `B = [math.MinInt64]`, `N = 2` and the code `MHC`: `B` is not empty, yet
`maxInteger` is reset to 0 and the jobs are those of `math.MinInt64`, 1, 2, where the claim
has `B` followed by `max(B) + 1 = -9223372036854775807, ..., 2`.  At `B = [math.MaxInt64]`,
`N = 5`, `max(B) + 1` wraps to `math.MinInt64`: the claim has the one job of `B`, the loop
appends from `math.MinInt64` upwards and whatever it returns has at least two jobs. -/
theorem defineUrls_sentinel_and_overflow :
    maxIntegerOf [minInt64] = 0 ∧
    defineUrls 5 [minInt64] 2 "MHC".toList
      = some (["https://www.ebi.ac.uk/Tools/dbfetch/dbfetch?db=ipdmhc;id=NHP-9223372036854775808;style=raw".toList,
               "https://www.ebi.ac.uk/Tools/dbfetch/dbfetch?db=ipdmhc;id=NHP00001;style=raw".toList,
               "https://www.ebi.ac.uk/Tools/dbfetch/dbfetch?db=ipdmhc;id=NHP00002;style=raw".toList],
              ["NHP-9223372036854775808".toList, "NHP00001".toList, "NHP00002".toList]) ∧
    wrapInt64 (maxIntegerOf [maxInt64] + 1) = minInt64 ∧
    defineUrls 40 [maxInt64] 5 "MHC".toList = none ∧
    ∀ fuel, defineUrls fuel [maxInt64] 5 "MHC".toList
      ≠ some ([urlOf "MHC".toList maxInt64], [idOf "MHC".toList maxInt64]) := by
  refine ⟨by decide, by decide, by decide, by decide, ?_⟩
  intro fuel h
  rw [defineUrls_eq] at h
  cases fuel with
  | zero => simp [appendMissing] at h
  | succ fuel =>
    have hw : wrapInt64 (maxIntegerOf [maxInt64] + 1) = minInt64 := by decide
    rw [hw] at h
    unfold appendMissing at h
    have hle : minInt64 ≤ (5 : Int) := by decide
    rw [if_pos hle] at h
    cases hr : appendMissing fuel (wrapInt64 (minInt64 + 1)) 5 ([maxInt64] ++ [minInt64]) with
    | none => rw [hr] at h; simp at h
    | some jobs =>
      rw [hr] at h
      have hlen := appendMissing_length _ _ _ _ _ hr
      have hs : supportedGene "MHC".toList = true := by decide
      simp only [Option.map_some', hs, if_true, Option.some.injEq, Prod.mk.injEq] at h
      have h2 := congrArg List.length h.2
      simp at h2 hlen
      omega

/-! ## The scanning loop on a body without an `ERROR` line -/

theorem scanLoop_error_dateLine (lines : List GoString) (st : ScanState)
    (h : ∃ l ∈ lines, HasPrefix l "ERROR".toList = true) :
    HasPrefix (scanLoop lines st).dateLine "ERROR".toList = true := by
  induction lines generalizing st with
  | nil => simp at h
  | cons l lines ih =>
    by_cases hl : HasPrefix l "ERROR".toList = true
    · simp only [scanLoop, hl, if_true]
    · have hl2 : HasPrefix l "ERROR".toList = false := by simpa using hl
      obtain ⟨x, hx, hxe⟩ := h
      have hx2 : x ∈ lines := by
        rcases List.mem_cons.1 hx with rfl | hx2
        · rw [hl2] at hxe
          cases hxe
        · exact hx2
      simp only [scanLoop, hl2]
      exact ih _ ⟨x, hx2, hxe⟩

theorem scanLoop_buffer (lines : List GoString) (st : ScanState)
    (h : ∀ l ∈ lines, HasPrefix l "ERROR".toList = false) :
    (scanLoop lines st).fileContentBuffer = st.fileContentBuffer ++ relined lines := by
  induction lines generalizing st with
  | nil => simp [scanLoop, relined]
  | cons l lines ih =>
    have hl : HasPrefix l "ERROR".toList = false := h l (List.mem_cons_self _ _)
    simp only [scanLoop, hl, Bool.false_eq_true, if_false]
    rw [ih _ (fun x hx => h x (List.mem_cons_of_mem _ hx))]
    simp [relined]

theorem scanLoop_idLine (lines : List GoString) (st : ScanState)
    (h : ∀ l ∈ lines, HasPrefix l "ERROR".toList = false) :
    (scanLoop lines st).idLine = st.idLine ∨ (scanLoop lines st).idLine ∈ lines := by
  induction lines generalizing st with
  | nil => left; rfl
  | cons l lines ih =>
    have hl : HasPrefix l "ERROR".toList = false := h l (List.mem_cons_self _ _)
    simp only [scanLoop, hl, Bool.false_eq_true, if_false]
    rcases ih { idLine := if HasPrefix l "ID".toList = true then l
                  else if HasPrefix l ">".toList = true then l else st.idLine,
                dateLine := if HasPrefix l "DT".toList = true then l else st.dateLine,
                fileContentBuffer := st.fileContentBuffer ++ (l ++ ['\n']) }
        (fun x hx => h x (List.mem_cons_of_mem _ hx)) with h1 | h1
    · rw [h1]
      dsimp only
      split_ifs
      · right; exact List.mem_cons_self _ _
      · right; exact List.mem_cons_self _ _
      · left; rfl
    · right
      exact List.mem_cons_of_mem _ h1

/-! ## A date token never comes from an `ERROR` line -/

theorem dropWhile_append_singleton (p : Char → Bool) (xs : GoString) (c : Char) (hc : p c = false) :
    (xs ++ [c]).dropWhile p = xs.dropWhile p ++ [c] := by
  induction xs with
  | nil => simp [List.dropWhile, hc]
  | cons x xs ih =>
    by_cases hx : p x = true
    · simp [List.dropWhile, hx, ih]
    · simp [List.dropWhile, hx]

theorem TrimSpace_cons (c : Char) (r : GoString) (hc : isSpace c = false) :
    ∃ r2, TrimSpace (c :: r) = c :: r2 := by
  unfold TrimSpace
  have h1 : (c :: r).dropWhile isSpace = c :: r := by simp [List.dropWhile, hc]
  rw [h1, List.reverse_cons, dropWhile_append_singleton isSpace _ c hc]
  exact ⟨(List.dropWhile isSpace r.reverse).reverse, by simp⟩

theorem fieldsAux_head (s cur : GoString) (hcur : cur ≠ []) :
    ∃ t rest, fieldsAux cur s = (cur ++ t) :: rest := by
  induction s generalizing cur with
  | nil =>
    refine ⟨[], [], ?_⟩
    have : cur.isEmpty = false := by
      cases cur with
      | nil => exact absurd rfl hcur
      | cons _ _ => rfl
    simp [fieldsAux, this]
  | cons c cs ih =>
    have hne : cur.isEmpty = false := by
      cases cur with
      | nil => exact absurd rfl hcur
      | cons _ _ => rfl
    by_cases hc : isSpace c = true
    · exact ⟨[], fieldsAux [] cs, by simp [fieldsAux, hc, hne]⟩
    · obtain ⟨t, rest, ht⟩ := ih (cur ++ [c]) (by simp)
      exact ⟨c :: t, rest, by simp [fieldsAux, hc, ht]⟩

theorem parseDMY_head_digit (s : GoString) (d : Time) (h : parseDMY s = some d) :
    ∃ c r, s = c :: r ∧ isDigit c = true := by
  unfold parseDMY at h
  split at h
  · rename_i d1 d2 s1 m1 m2 s2 y1 y2 y3 y4
    refine ⟨d1, _, rfl, ?_⟩
    by_cases hd : isDigit d1 = true
    · exact hd
    · exfalso
      have hn : numField [d1, d2] = none := by simp [numField, hd]
      rw [hn] at h
      split at h
      · simp at h
      · cases h
  · cases h

theorem dateInFileStrOf_error (l tok : GoString) (hl : HasPrefix l "ERROR".toList = true)
    (h : dateInFileStrOf l = some tok) : parseDMY tok = none := by
  obtain ⟨r, rfl⟩ : ∃ r, l = 'E' :: r := by
    unfold HasPrefix at hl
    rw [List.isPrefixOf_iff_prefix] at hl
    obtain ⟨t, ht⟩ := hl
    exact ⟨_, ht.symm⟩
  have hE : isSpace 'E' = false := by decide
  have h1 : TrimPrefix ('E' :: r) "DT".toList = 'E' :: r := by
    have : HasPrefix ('E' :: r) "DT".toList = false := by
      simp [HasPrefix, List.isPrefixOf]
    simp only [TrimPrefix, this, Bool.false_eq_true, if_false]
  obtain ⟨r2, h2⟩ := TrimSpace_cons 'E' r hE
  unfold dateInFileStrOf at h
  rw [h1, h2] at h
  have h3 : Fields ('E' :: r2) = fieldsAux ['E'] r2 := by
    simp [Fields, fieldsAux, hE]
  obtain ⟨t, rest, h4⟩ := fieldsAux_head r2 ['E'] (by simp)
  rw [h3, h4] at h
  simp [index?] at h
  subst h
  cases hp : parseDMY ('E' :: t) with
  | none => rfl
  | some d =>
    obtain ⟨c, r3, he, hdig⟩ := parseDMY_head_digit _ _ hp
    simp at he
    rw [← he.1] at hdig
    exact absurd hdig (by decide)

theorem no_error_line_of_date (fileContent tok : GoString) (d : Time)
    (hd : dateInFileStrOf (scanBody fileContent).dateLine = some tok)
    (hp : parseDMY tok = some d) :
    ∀ l ∈ ScanLines fileContent, HasPrefix l "ERROR".toList = false := by
  by_contra hcon
  push_neg at hcon
  obtain ⟨l, hl, hle⟩ := hcon
  have hle2 : HasPrefix l "ERROR".toList = true := by simpa using hle
  have := scanLoop_error_dateLine (ScanLines fileContent)
    { idLine := [], dateLine := [], fileContentBuffer := [] } ⟨l, hl, hle2⟩
  have hnone := dateInFileStrOf_error _ tok this hd
  rw [hp] at hnone
  cases hnone

theorem idInFileStrOf_isSome (idLine : GoString) : ∃ x, idInFileStrOf idLine = some x := by
  have key : ∀ (sep : Char) (s cur : GoString), ∃ x rest, splitAux sep cur s = x :: rest := by
    intro sep s
    induction s with
    | nil => intro cur; exact ⟨cur, [], rfl⟩
    | cons c cs ih =>
      intro cur
      by_cases hc : c = sep
      · exact ⟨cur, splitAux sep [] cs, by simp [splitAux, hc]⟩
      · obtain ⟨x, rest, hx⟩ := ih (cur ++ [c])
        exact ⟨x, rest, by simp [splitAux, hc, hx]⟩
  obtain ⟨x, rest, hx⟩ := key ';' (TrimSpace (TrimPrefix idLine "ID".toList)) []
  unfold idInFileStrOf Split
  rw [hx]
  exact ⟨TrimSpace x, rfl⟩

/-! ## The flat-file path of `checkAndSaveFile` -/

theorem buildDateLookup_files (env : Env) (id dateStr : GoString) (w : World) :
    (buildDateLookup env id dateStr w).2.files = w.files := by
  unfold buildDateLookup
  split
  · by_cases ho : env.openOk = true
    · by_cases hw : env.writeOk = true
      · simp [ho, hw]
      · simp [ho, hw]
    · simp [ho]
  · rfl

theorem scanBody_of_date (fileContent tok : GoString) (d : Time)
    (hd : dateInFileStrOf (scanBody fileContent).dateLine = some tok)
    (hp : parseDMY tok = some d) :
    (scanBody fileContent).fileContentBuffer = relined (ScanLines fileContent) ∧
    (scanBody fileContent).idLine ≠ notFound := by
  have hne := no_error_line_of_date fileContent tok d hd hp
  constructor
  · unfold scanBody
    rw [scanLoop_buffer _ _ hne]
    rfl
  · intro hnf
    have hE : HasPrefix notFound "ERROR".toList = true := by decide
    rcases scanLoop_idLine (ScanLines fileContent)
        { idLine := [], dateLine := [], fileContentBuffer := [] } hne with h1 | h1
    · have h2 : (scanBody fileContent).idLine = [] := h1
      rw [h2] at hnf
      exact absurd hnf (by decide)
    · have h2 : (scanBody fileContent).idLine ∈ ScanLines fileContent := h1
      rw [hnf] at h2
      have := hne _ h2
      rw [hE] at this
      cases this

/-- The flat-file path of `checkAndSaveFile` in one equation: for a valid cutoff and a body
that is not a sequence-header record and whose date token parses, the call makes the index
update unless the identifier is in the known list, returns its error if it fails, and
otherwise creates `<identifier>.embl` if and only if the date is after the cutoff. -/
theorem checkAndSaveFile_flat_file (env : Env) (id : GoString) (lookupIDs : List GoString)
    (fileContent dateStr : GoString) (w : World) (givenDate dateInFile : Time)
    (dateInFileStr idInFileStr : GoString)
    (hdate : parseYMD dateStr = some givenDate)
    (hflat : HasPrefix (scanBody fileContent).idLine ">".toList = false)
    (hd : dateInFileStrOf (scanBody fileContent).dateLine = some dateInFileStr)
    (hp : parseDMY dateInFileStr = some dateInFile)
    (hi : idInFileStrOf (scanBody fileContent).idLine = some idInFileStr) :
    checkAndSaveFile env id lookupIDs fileContent dateStr w =
      if lookupIDs.contains idInFileStr = true then
        if dateInFile.After givenDate = true then
          createAndCopy env (emblName idInFileStr) (relined (ScanLines fileContent)) w
        else (Status.ok, w)
      else if (buildDateLookup env idInFileStr dateInFileStr w).1 ≠ Status.ok then
        buildDateLookup env idInFileStr dateInFileStr w
      else if dateInFile.After givenDate = true then
        createAndCopy env (emblName idInFileStr) (relined (ScanLines fileContent))
          (buildDateLookup env idInFileStr dateInFileStr w).2
      else (Status.ok, (buildDateLookup env idInFileStr dateInFileStr w).2) := by
  obtain ⟨hbuf, hnf⟩ := scanBody_of_date fileContent dateInFileStr dateInFile hd hp
  unfold checkAndSaveFile
  simp only [hdate, hnf, hflat, hd, hp, hi, hbuf, if_false, Bool.false_eq_true]
  by_cases hc : lookupIDs.contains idInFileStr = true
  · simp only [hc, Bool.not_true, Bool.false_eq_true, if_false, if_true, ne_eq, not_true_eq_false]
  · have hc2 : lookupIDs.contains idInFileStr = false := by simpa using hc
    simp only [hc2, Bool.not_false, if_true, Bool.false_eq_true, if_false]

/-- On the flat-file path the artifact `<identifier>.embl` is written if and only if the
date is strictly after the cutoff, the index update did not fail (none is made for a known
identifier) and the file can be created. -/
theorem checkAndSaveFile_writes_iff (env : Env) (id : GoString) (lookupIDs : List GoString)
    (fileContent dateStr : GoString) (w : World) (givenDate dateInFile : Time)
    (dateInFileStr idInFileStr : GoString)
    (hdate : parseYMD dateStr = some givenDate)
    (hflat : HasPrefix (scanBody fileContent).idLine ">".toList = false)
    (hd : dateInFileStrOf (scanBody fileContent).dateLine = some dateInFileStr)
    (hp : parseDMY dateInFileStr = some dateInFile)
    (hi : idInFileStrOf (scanBody fileContent).idLine = some idInFileStr) :
    (checkAndSaveFile env id lookupIDs fileContent dateStr w).2.files =
      if dateInFile.After givenDate = true ∧
          (lookupIDs.contains idInFileStr = true ∨
            (buildDateLookup env idInFileStr dateInFileStr w).1 = Status.ok) ∧
          env.createOk (emblName idInFileStr) = true then
        w.files ++ [(emblName idInFileStr, relined (ScanLines fileContent))]
      else w.files := by
  rw [checkAndSaveFile_flat_file env id lookupIDs fileContent dateStr w givenDate dateInFile
    dateInFileStr idInFileStr hdate hflat hd hp hi]
  have hf := buildDateLookup_files env idInFileStr dateInFileStr w
  generalize lookupIDs.contains idInFileStr = found
  generalize dateInFile.After givenDate = after
  generalize hbu : buildDateLookup env idInFileStr dateInFileStr w = up at hf
  obtain ⟨ust, uw⟩ := up
  unfold createAndCopy
  generalize env.createOk (emblName idInFileStr) = cr
  simp only at hf
  cases found <;> cases after <;> cases cr <;> cases ust <;> simp [hf]

/-! ## C3: a failed index update keeps the record from being written -/

/-- C3, at a record dated 1 January 2021 with the cutoff `2020-03-01`, an identifier that
is not in the known list and a lookup file that stays locked: the release date is strictly
after the cutoff, yet `checkAndSaveFile` returns the error of `buildDateLookup` and writes
no artifact.  With a free lock the same call writes `NHP00001.embl`. -/
theorem checkAndSaveFile_upsert_failure_blocks_write :
    (dateInFileStrOf (scanBody emblBody).dateLine).bind parseDMY = some ⟨2021, 1, 1⟩ ∧
    Time.After ⟨2021, 1, 1⟩ ⟨2020, 3, 1⟩ = true ∧
    checkAndSaveFile contendedEnv "NHP00001".toList [] emblBody "2020-03-01".toList ⟨none, []⟩
      = (Status.err, ⟨none, []⟩) ∧
    checkAndSaveFile calmEnv "NHP00001".toList [] emblBody "2020-03-01".toList ⟨none, []⟩
      = (Status.ok, ⟨some [("NHP00001".toList, "01/01/2021".toList)],
          [("NHP00001.embl".toList, emblBody)]⟩) := by
  decide

/-! ## C4: the index update merges -/

/-- C4: a successful `buildDateLookup(id, d)` leaves the persisted mapping equal to the
mapping `m` it found with `id` mapped to `d`: looking up `id` gives `d`, looking up any
other key gives what `m` gave (present keys keep their date, absent keys stay absent);
`m` is the empty mapping when there was no store file.  The artifacts are untouched. -/
theorem buildDateLookup_merges (env : Env) (id dateStr : GoString) (w w2 : World)
    (h : buildDateLookup env id dateStr w = (Status.ok, w2)) :
    (∃ m2, w2.index = some m2 ∧
      ∀ k, Index.get m2 k = if k = id then some dateStr else Index.get (w.index.getD []) k) ∧
    w2.files = w.files := by
  unfold buildDateLookup at h
  split at h
  · by_cases ho : env.openOk = true
    · by_cases hw : env.writeOk = true
      · simp [ho, hw] at h
        subst h
        exact ⟨⟨_, rfl, fun k => Index.get_set _ _ _ _⟩, rfl⟩
      · simp [ho, hw] at h
    · simp [ho] at h
  · simp at h

/-- Witness of C4: an update of the example index with a new key succeeds and merges. -/
theorem buildDateLookup_merges_witness :
    buildDateLookup calmEnv "NHP00012".toList "15/03/2020".toList ⟨some exampleIndex, []⟩
        = (Status.ok, ⟨some (exampleIndex ++ [("NHP00012".toList, "15/03/2020".toList)]), []⟩) ∧
      ((∃ m2, (⟨some (exampleIndex ++ [("NHP00012".toList, "15/03/2020".toList)]), []⟩ : World).index
            = some m2 ∧
          ∀ k, Index.get m2 k =
            if k = "NHP00012".toList then some "15/03/2020".toList
            else Index.get ((⟨some exampleIndex, []⟩ : World).index.getD []) k) ∧
        (⟨some (exampleIndex ++ [("NHP00012".toList, "15/03/2020".toList)]), []⟩ : World).files
          = (⟨some exampleIndex, []⟩ : World).files) :=
  ⟨by decide, buildDateLookup_merges calmEnv _ _ _ _ (by decide)⟩

/-! ## The scanner on the lines of a body -/

theorem HasPrefix_dropCR (l p : GoString) (h : HasPrefix l p = false) :
    HasPrefix (dropCR l) p = false := by
  unfold dropCR
  by_cases hl : l.getLast? = some '\r'
  · rw [if_pos hl]
    cases hc : HasPrefix l.dropLast p with
    | false => rfl
    | true =>
      exfalso
      unfold HasPrefix at hc h
      rw [List.isPrefixOf_iff_prefix] at hc
      have h2 : p.isPrefixOf l = true := by
        rw [List.isPrefixOf_iff_prefix]
        exact hc.trans (List.dropLast_prefix l)
      rw [h2] at h
      cases h
  · rw [if_neg hl]
    exact h

theorem ScanLines_of_rawLines (body : GoString) (pre post : List GoString) (line : GoString)
    (hraw : rawLines body = pre ++ line :: post)
    (hfit : ∀ l ∈ pre, fitsToken l = true) (hfitl : fitsToken line = true) :
    ScanLines body
      = pre.map dropCR ++ dropCR line :: (post.takeWhile fitsToken).map dropCR := by
  unfold ScanLines
  rw [hraw, List.takeWhile_append_of_pos hfit, List.takeWhile_cons, if_pos hfitl]
  simp

theorem rawLinesAux_line (s : GoString) (hs : ∀ c ∈ s, c ≠ '\n') (cur rest : GoString) :
    rawLinesAux cur (s ++ '\n' :: rest) = (cur ++ s) :: rawLinesAux [] rest := by
  induction s generalizing cur with
  | nil => simp [rawLinesAux]
  | cons c s ih =>
    have hc : c ≠ '\n' := hs c (List.mem_cons_self _ _)
    rw [List.cons_append, rawLinesAux, if_neg hc,
      ih (fun x hx => hs x (List.mem_cons_of_mem _ hx)) (cur ++ [c])]
    simp

theorem byteLen_replicate_A (n : Nat) : byteLen (List.replicate n 'A') = n := by
  induction n with
  | zero => rfl
  | succ n ih =>
    have h1 : ('A' : Char).utf8Size = 1 := by decide
    unfold byteLen at ih ⊢
    rw [List.replicate_succ, List.map_cons, List.sum_cons, ih, h1]
    omega

/-- A first line of 65536 bytes or more ends the scan before any line is returned: the
loop of `checkAndSaveFile` does not run, the identifier line and the date line stay empty,
and the call panics at `strings.Fields(dateLine)[0]`, whatever follows the long line. -/
theorem checkAndSaveFile_long_line (env : Env) (id : GoString) (lookupIDs : List GoString)
    (dateStr : GoString) (w : World) (givenDate : Time) (n : Nat) (rest : GoString)
    (hdate : parseYMD dateStr = some givenDate) (hn : 65536 ≤ n) :
    ScanLines (List.replicate n 'A' ++ '\n' :: rest) = [] ∧
    checkAndSaveFile env id lookupIDs (List.replicate n 'A' ++ '\n' :: rest) dateStr w
      = (Status.panicked, w) := by
  have hA : ∀ c ∈ List.replicate n 'A', c ≠ '\n' := by
    intro c hc
    rw [List.eq_of_mem_replicate hc]
    decide
  have hfit : fitsToken (List.replicate n 'A') = false := by
    unfold fitsToken maxScanTokenSize
    rw [byteLen_replicate_A]
    exact decide_eq_false (by omega)
  have hscan : ScanLines (List.replicate n 'A' ++ '\n' :: rest) = [] := by
    unfold ScanLines rawLines
    rw [rawLinesAux_line _ hA, List.nil_append, List.takeWhile_cons, hfit]
    rfl
  refine ⟨hscan, ?_⟩
  have hs : scanBody (List.replicate n 'A' ++ '\n' :: rest)
      = { idLine := [], dateLine := [], fileContentBuffer := [] } := by
    unfold scanBody
    rw [hscan]
    rfl
  have h1 : ¬ (([] : GoString) = notFound) := by decide
  have h2 : HasPrefix ([] : GoString) ">".toList = false := by decide
  have h3 : dateInFileStrOf ([] : GoString) = none := by decide
  unfold checkAndSaveFile
  simp only [hdate, hs, h1, h2, h3, if_false, Bool.false_eq_true]

/-- The not-found answer after a line of 65536 bytes: the call panics. -/
theorem checkAndSaveFile_long_line_example :
    checkAndSaveFile calmEnv "NHP00042".toList []
        (List.replicate 65536 'A' ++ '\n' :: "ERROR 12 No entries found.\n".toList)
        "2020-03-01".toList ⟨none, []⟩
      = (Status.panicked, ⟨none, []⟩) :=
  (checkAndSaveFile_long_line calmEnv _ [] _ ⟨none, []⟩ ⟨2020, 3, 1⟩ 65536 _
    (by decide) (le_refl _)).2

/-! ## C5: the not-found answer -/

/-- C5 as stated fails at a cutoff that is not a date: with the cutoff `2020-3-1` (month
and day not padded) and the body `ERROR 12 No entries found.` the call returns the error of
`time.Parse`, not success.  Nothing is written and no upsert is made. -/
theorem checkAndSaveFile_not_found_bad_cutoff :
    parseYMD "2020-3-1".toList = none ∧
    ScanLines "ERROR 12 No entries found.\n".toList = [notFound] ∧
    checkAndSaveFile calmEnv "NHP00042".toList ["NHP00010".toList]
        "ERROR 12 No entries found.\n".toList "2020-3-1".toList ⟨some exampleIndex, []⟩
      = (Status.err, ⟨some exampleIndex, []⟩) := by
  decide

/-- C5, amended: when the first line of the body that begins with `ERROR` is the not-found
sentinel `ERROR 12 No entries found.` (a carriage return before the line feed aside) and
that line and the lines before it have fewer than 65536 bytes each, then for every list of
known identifiers `checkAndSaveFile` writes no file and makes no index upsert; it returns
nil for every cutoff that is a valid year-month-day date, and the error of `time.Parse` for
a cutoff that is not. -/
theorem checkAndSaveFile_not_found (env : Env) (id : GoString) (lookupIDs : List GoString)
    (fileContent dateStr : GoString) (w : World)
    (pre post : List GoString) (line : GoString)
    (hraw : rawLines fileContent = pre ++ line :: post)
    (hline : dropCR line = notFound)
    (hpre : ∀ l ∈ pre, HasPrefix l "ERROR".toList = false)
    (hfit : ∀ l ∈ pre, fitsToken l = true) (hfitl : fitsToken line = true) :
    (∀ givenDate, parseYMD dateStr = some givenDate →
      checkAndSaveFile env id lookupIDs fileContent dateStr w = (Status.ok, w)) ∧
    (parseYMD dateStr = none →
      checkAndSaveFile env id lookupIDs fileContent dateStr w = (Status.err, w)) := by
  constructor
  · intro givenDate hdate
    have hid : (scanBody fileContent).idLine = notFound := by
      unfold scanBody
      rw [ScanLines_of_rawLines fileContent pre post line hraw hfit hfitl, hline]
      apply scanLoop_stops_at_notFound
      intro l hl
      obtain ⟨x, hx, rfl⟩ := List.mem_map.1 hl
      exact HasPrefix_dropCR x _ (hpre x hx)
    unfold checkAndSaveFile
    simp only [hdate, hid, if_true]
  · intro hdate
    unfold checkAndSaveFile
    simp only [hdate]

/-- Witness of C5 (amended): a body whose second line is the sentinel, with CRLF line ends
and a contended lock; nil for the cutoff `2020-03-01`, an error for the cutoff `2020-3-1`. -/
theorem checkAndSaveFile_not_found_witness :
    checkAndSaveFile contendedEnv "NHP00042".toList ["NHP00010".toList]
        "\r\nERROR 12 No entries found.\r\nID   NHP00042;\n".toList "2020-03-01".toList
        ⟨some exampleIndex, []⟩
      = (Status.ok, ⟨some exampleIndex, []⟩) ∧
    checkAndSaveFile contendedEnv "NHP00042".toList ["NHP00010".toList]
        "\r\nERROR 12 No entries found.\r\nID   NHP00042;\n".toList "2020-3-1".toList
        ⟨some exampleIndex, []⟩
      = (Status.err, ⟨some exampleIndex, []⟩) :=
  ⟨(checkAndSaveFile_not_found contendedEnv "NHP00042".toList ["NHP00010".toList]
      "\r\nERROR 12 No entries found.\r\nID   NHP00042;\n".toList "2020-03-01".toList
      ⟨some exampleIndex, []⟩ ["\r".toList] ["ID   NHP00042;".toList]
      "ERROR 12 No entries found.\r".toList
      (by decide) (by decide) (by decide) (by decide) (by decide)).1 ⟨2020, 3, 1⟩ (by decide),
   (checkAndSaveFile_not_found contendedEnv "NHP00042".toList ["NHP00010".toList]
      "\r\nERROR 12 No entries found.\r\nID   NHP00042;\n".toList "2020-3-1".toList
      ⟨some exampleIndex, []⟩ ["\r".toList] ["ID   NHP00042;".toList]
      "ERROR 12 No entries found.\r".toList
      (by decide) (by decide) (by decide) (by decide) (by decide)).2 (by decide)⟩

/-! ## The bytes of the buffer -/

theorem dropCR_of_no_CR (cur : GoString) (h : ∀ c ∈ cur, c ≠ '\r') : dropCR cur = cur := by
  unfold dropCR
  by_cases hl : cur.getLast? = some '\r'
  · exact absurd rfl (h _ (List.mem_of_getLast?_eq_some hl))
  · rw [if_neg hl]

theorem relined_rawLinesAux (s cur : GoString)
    (hs : ∀ c ∈ s, c ≠ '\r') (hcur : ∀ c ∈ cur, c ≠ '\r')
    (hlast : s.getLast? = some '\n') :
    relined ((rawLinesAux cur s).map dropCR) = cur ++ s := by
  induction s generalizing cur with
  | nil => simp at hlast
  | cons c cs ih =>
    have hcs : ∀ x ∈ cs, x ≠ '\r' := fun x hx => hs x (List.mem_cons_of_mem _ hx)
    by_cases hc : c = '\n'
    · subst hc
      rw [rawLinesAux, if_pos rfl, List.map_cons, dropCR_of_no_CR cur hcur]
      cases cs with
      | nil => simp [rawLinesAux, relined]
      | cons c2 cs2 =>
        have hl2 : (c2 :: cs2).getLast? = some '\n' := by
          rw [List.getLast?_cons_cons] at hlast
          exact hlast
        have := ih [] hcs (by simp) hl2
        simp only [relined, List.map_cons, List.flatten_cons] at this ⊢
        rw [this]
        simp
    · rw [rawLinesAux, if_neg hc]
      cases cs with
      | nil =>
        simp at hlast
        exact absurd hlast hc
      | cons c2 cs2 =>
        have hl2 : (c2 :: cs2).getLast? = some '\n' := by
          rw [List.getLast?_cons_cons] at hlast
          exact hlast
        have hcur2 : ∀ x ∈ cur ++ [c], x ≠ '\r' := by
          intro x hx
          rcases List.mem_append.1 hx with h1 | h1
          · exact hcur x h1
          · simp at h1
            subst h1
            exact hs _ (List.mem_cons_self _ _)
        rw [ih (cur ++ [c]) hcs hcur2 hl2]
        simp

theorem relined_ScanLines (body : GoString) (hs : ∀ c ∈ body, c ≠ '\r')
    (hfit : ∀ l ∈ rawLines body, fitsToken l = true)
    (hlast : body.getLast? = some '\n') : relined (ScanLines body) = body := by
  unfold ScanLines
  rw [List.takeWhile_eq_self_iff.2 hfit]
  unfold rawLines
  rw [relined_rawLinesAux body [] hs (by simp) hlast]
  rfl

/-! ## C6: what is written is the body cut into lines and put together again -/

/-- C6 as stated fails on a body with CRLF line endings and on a body without a final line
feed: the date is after the cutoff and one artifact is written, but its bytes are not the
bytes of the response body. -/
theorem checkAndSaveFile_bytes_differ :
    (checkAndSaveFile calmEnv "NHP00001".toList []
        "ID   NHP00001; SV 1\r\nDT   01/01/2021 (Rel. 3)\r\n".toList "2020-03-01".toList ⟨none, []⟩).2.files
      = [("NHP00001.embl".toList, "ID   NHP00001; SV 1\nDT   01/01/2021 (Rel. 3)\n".toList)] ∧
    "ID   NHP00001; SV 1\nDT   01/01/2021 (Rel. 3)\n".toList
      ≠ "ID   NHP00001; SV 1\r\nDT   01/01/2021 (Rel. 3)\r\n".toList ∧
    (checkAndSaveFile calmEnv "NHP00001".toList []
        "ID   NHP00001; SV 1\nDT   01/01/2021 (Rel. 3)".toList "2020-03-01".toList ⟨none, []⟩).2.files
      = [("NHP00001.embl".toList, "ID   NHP00001; SV 1\nDT   01/01/2021 (Rel. 3)\n".toList)] ∧
    "ID   NHP00001; SV 1\nDT   01/01/2021 (Rel. 3)\n".toList
      ≠ "ID   NHP00001; SV 1\nDT   01/01/2021 (Rel. 3)".toList := by
  decide

/-- A line of 65536 bytes or more after the date line: the scan ends there and the
artifact holds the lines before it only. -/
theorem checkAndSaveFile_truncates_at_long_line :
    ScanLines ("ID   NHP00001; SV 1".toList ++ '\n' :: ("DT   01/01/2021 (Rel. 3)".toList ++
        '\n' :: (List.replicate 70000 'A' ++ '\n' :: "//\n".toList)))
      = ["ID   NHP00001; SV 1".toList, "DT   01/01/2021 (Rel. 3)".toList] ∧
    (checkAndSaveFile calmEnv "NHP00001".toList []
        ("ID   NHP00001; SV 1".toList ++ '\n' :: ("DT   01/01/2021 (Rel. 3)".toList ++
          '\n' :: (List.replicate 70000 'A' ++ '\n' :: "//\n".toList)))
        "2020-03-01".toList ⟨none, []⟩).2.files
      = [("NHP00001.embl".toList, "ID   NHP00001; SV 1\nDT   01/01/2021 (Rel. 3)\n".toList)] := by
  have hfit : fitsToken (List.replicate 70000 'A') = false := by
    unfold fitsToken maxScanTokenSize
    rw [byteLen_replicate_A]
    decide
  have hA : ∀ c ∈ List.replicate 70000 'A', c ≠ '\n' := by
    intro c hc
    rw [List.eq_of_mem_replicate hc]
    decide
  have hscan : ScanLines ("ID   NHP00001; SV 1".toList ++ '\n' ::
      ("DT   01/01/2021 (Rel. 3)".toList ++ '\n' :: (List.replicate 70000 'A' ++ '\n' :: "//\n".toList)))
      = ["ID   NHP00001; SV 1".toList, "DT   01/01/2021 (Rel. 3)".toList] := by
    unfold ScanLines rawLines
    rw [rawLinesAux_line _ (by decide), rawLinesAux_line _ (by decide), rawLinesAux_line _ hA]
    have f1 : fitsToken ([] ++ "ID   NHP00001; SV 1".toList) = true := by decide
    have f2 : fitsToken ([] ++ "DT   01/01/2021 (Rel. 3)".toList) = true := by decide
    rw [List.takeWhile_cons, if_pos f1, List.takeWhile_cons, if_pos f2, List.takeWhile_cons]
    simp only [List.nil_append, hfit, Bool.false_eq_true, if_false]
    decide
  refine ⟨hscan, ?_⟩
  have hs : scanBody ("ID   NHP00001; SV 1".toList ++ '\n' ::
      ("DT   01/01/2021 (Rel. 3)".toList ++ '\n' :: (List.replicate 70000 'A' ++ '\n' :: "//\n".toList)))
      = { idLine := "ID   NHP00001; SV 1".toList, dateLine := "DT   01/01/2021 (Rel. 3)".toList,
          fileContentBuffer := "ID   NHP00001; SV 1\nDT   01/01/2021 (Rel. 3)\n".toList } := by
    unfold scanBody
    rw [hscan]
    decide
  rw [checkAndSaveFile_writes_iff calmEnv _ [] _ _ ⟨none, []⟩ ⟨2020, 3, 1⟩ ⟨2021, 1, 1⟩
    "01/01/2021".toList "NHP00001".toList (by decide) (by rw [hs]; decide) (by rw [hs]; decide)
    (by decide) (by rw [hs]; decide), hscan]
  decide

/-- C6, amended: for a valid cutoff and a flat-file body whose extracted date is strictly
after the cutoff, when the index update (made only for an identifier that is not in the
known list) does not fail and the file can be created, `checkAndSaveFile` returns nil and
writes exactly one artifact, `<identifier>.embl`; its bytes are the lines the scanner
yields (the lines of the body up to the first line of 65536 bytes or more, cut at each line
feed, one trailing carriage return dropped), each followed by one line feed.  They are the
bytes of the response body when the body has no carriage return, has no line of 65536
bytes or more, and ends with a line feed. -/
theorem checkAndSaveFile_writes_relined_body (env : Env) (id : GoString)
    (lookupIDs : List GoString) (fileContent dateStr : GoString) (w : World)
    (givenDate dateInFile : Time) (dateInFileStr idInFileStr : GoString)
    (hdate : parseYMD dateStr = some givenDate)
    (hflat : HasPrefix (scanBody fileContent).idLine ">".toList = false)
    (hd : dateInFileStrOf (scanBody fileContent).dateLine = some dateInFileStr)
    (hp : parseDMY dateInFileStr = some dateInFile)
    (hi : idInFileStrOf (scanBody fileContent).idLine = some idInFileStr)
    (hafter : dateInFile.After givenDate = true)
    (hupsert : lookupIDs.contains idInFileStr = true ∨
      (buildDateLookup env idInFileStr dateInFileStr w).1 = Status.ok)
    (hcreate : env.createOk (emblName idInFileStr) = true) :
    (checkAndSaveFile env id lookupIDs fileContent dateStr w).1 = Status.ok ∧
    (checkAndSaveFile env id lookupIDs fileContent dateStr w).2.files
      = w.files ++ [(emblName idInFileStr, relined (ScanLines fileContent))] ∧
    ((∀ c ∈ fileContent, c ≠ '\r') → (∀ l ∈ rawLines fileContent, fitsToken l = true) →
      fileContent.getLast? = some '\n' → relined (ScanLines fileContent) = fileContent) := by
  refine ⟨?_, ?_, fun h1 h2 h3 => relined_ScanLines fileContent h1 h2 h3⟩
  · rw [checkAndSaveFile_flat_file env id lookupIDs fileContent dateStr w givenDate dateInFile
      dateInFileStr idInFileStr hdate hflat hd hp hi]
    unfold createAndCopy
    rw [hafter, hcreate]
    generalize lookupIDs.contains idInFileStr = found at hupsert
    generalize buildDateLookup env idInFileStr dateInFileStr w = up at hupsert
    obtain ⟨ust, uw⟩ := up
    cases found <;> cases ust <;> simp at hupsert ⊢
  · rw [checkAndSaveFile_writes_iff env id lookupIDs fileContent dateStr w givenDate dateInFile
      dateInFileStr idInFileStr hdate hflat hd hp hi]
    rw [if_pos ⟨hafter, hupsert, hcreate⟩]

/-- Witness of C6 (amended): the record of 1 January 2021, cutoff `2020-03-01`; the body
has no carriage return, no long line and a final line feed, and is written as it is. -/
theorem checkAndSaveFile_writes_relined_body_witness :
    (checkAndSaveFile calmEnv "NHP00001".toList [] emblBody "2020-03-01".toList ⟨none, []⟩).1
      = Status.ok ∧
    (checkAndSaveFile calmEnv "NHP00001".toList [] emblBody "2020-03-01".toList ⟨none, []⟩).2.files
      = ([] : List (GoString × GoString))
          ++ [(emblName "NHP00001".toList, relined (ScanLines emblBody))] ∧
    relined (ScanLines emblBody) = emblBody :=
  ⟨(checkAndSaveFile_writes_relined_body calmEnv "NHP00001".toList [] emblBody
      "2020-03-01".toList ⟨none, []⟩ ⟨2020, 3, 1⟩ ⟨2021, 1, 1⟩ "01/01/2021".toList
      "NHP00001".toList (by decide) (by decide) (by decide) (by decide) (by decide) (by decide)
      (Or.inr (by decide)) (by decide)).1,
   (checkAndSaveFile_writes_relined_body calmEnv "NHP00001".toList [] emblBody
      "2020-03-01".toList ⟨none, []⟩ ⟨2020, 3, 1⟩ ⟨2021, 1, 1⟩ "01/01/2021".toList
      "NHP00001".toList (by decide) (by decide) (by decide) (by decide) (by decide) (by decide)
      (Or.inr (by decide)) (by decide)).2.1,
   (checkAndSaveFile_writes_relined_body calmEnv "NHP00001".toList [] emblBody
      "2020-03-01".toList ⟨none, []⟩ ⟨2020, 3, 1⟩ ⟨2021, 1, 1⟩ "01/01/2021".toList
      "NHP00001".toList (by decide) (by decide) (by decide) (by decide) (by decide) (by decide)
      (Or.inr (by decide)) (by decide)).2.2 (by decide) (by decide) (by decide)⟩

/-! ## The other paths of `checkAndSaveFile` -/

/-- The sequence-header path: for a valid cutoff, when the identifier line kept by the
scanning loop begins with `>` and has a piece after its first colon, the buffered body is
written to `<identifier>.fasta` and the index is left alone. -/
theorem checkAndSaveFile_header_record (env : Env) (id : GoString) (lookupIDs : List GoString)
    (fileContent dateStr : GoString) (w : World) (givenDate : Time) (idInFileStr : GoString)
    (hdate : parseYMD dateStr = some givenDate)
    (hhead : HasPrefix (scanBody fileContent).idLine ">".toList = true)
    (hid : fastaIdOf (scanBody fileContent).idLine = some idInFileStr)
    (hcreate : env.createOk (fastaName idInFileStr) = true) :
    checkAndSaveFile env id lookupIDs fileContent dateStr w
      = (Status.ok,
          { index := w.index,
            files := w.files ++ [(fastaName idInFileStr, (scanBody fileContent).fileContentBuffer)] }) := by
  have hnf : (scanBody fileContent).idLine ≠ notFound := by
    intro e
    rw [e] at hhead
    exact absurd hhead (by decide)
  unfold checkAndSaveFile
  simp only [hdate, hnf, hhead, hid, if_false, if_true]
  unfold createAndCopy
  rw [if_pos hcreate]

/-- A date token that does not parse is a returned error, and no date token at all is a
panic; neither writes a file nor touches the index. -/
theorem checkAndSaveFile_bad_date (env : Env) (id : GoString) (lookupIDs : List GoString)
    (fileContent dateStr : GoString) (w : World) (givenDate : Time)
    (hdate : parseYMD dateStr = some givenDate)
    (hnf : (scanBody fileContent).idLine ≠ notFound)
    (hflat : HasPrefix (scanBody fileContent).idLine ">".toList = false) :
    (dateInFileStrOf (scanBody fileContent).dateLine = none →
      checkAndSaveFile env id lookupIDs fileContent dateStr w = (Status.panicked, w)) ∧
    (∀ tok, dateInFileStrOf (scanBody fileContent).dateLine = some tok → parseDMY tok = none →
      checkAndSaveFile env id lookupIDs fileContent dateStr w = (Status.err, w)) := by
  constructor
  · intro hd
    unfold checkAndSaveFile
    simp only [hdate, hnf, hflat, hd, if_false, Bool.false_eq_true]
  · intro tok hd hp
    unfold checkAndSaveFile
    simp only [hdate, hnf, hflat, hd, hp, if_false, Bool.false_eq_true]

/-- The sibling `checkAndSaveFile` of `download-ipd-alleles.go` has no index update between
the parsing and the writing: for a valid cutoff and a body that is not the not-found answer
and whose date token parses, it writes `<identifier>.embl` when the date is strictly after
the cutoff and returns nil without writing otherwise. -/
theorem Alleles.checkAndSaveFile_without_index (env : Env) (fileContent dateStr : GoString)
    (w : World) (givenDate dateInFile : Time) (dateInFileStr idInFileStr : GoString)
    (hdate : parseYMD dateStr = some givenDate)
    (hnf : (Alleles.scanBody fileContent).idLine ≠ notFound)
    (hd : dateInFileStrOf (Alleles.scanBody fileContent).dateLine = some dateInFileStr)
    (hp : parseDMY dateInFileStr = some dateInFile)
    (hi : idInFileStrOf (Alleles.scanBody fileContent).idLine = some idInFileStr) :
    Alleles.checkAndSaveFile env fileContent dateStr w =
      if dateInFile.After givenDate = true then
        createAndCopy env (emblName idInFileStr) (Alleles.scanBody fileContent).fileContentBuffer w
      else (Status.ok, w) := by
  unfold Alleles.checkAndSaveFile
  simp only [hdate, hnf, hd, hp, hi, ne_eq, not_false_eq_true, if_true]

/-- The sibling on the not-found answer and on the empty body. -/
theorem Alleles.checkAndSaveFile_examples :
    Alleles.checkAndSaveFile calmEnv "ERROR 12 No entries found.\n".toList "2020-03-01".toList
        ⟨none, []⟩ = (Status.ok, ⟨none, []⟩) ∧
    Alleles.checkAndSaveFile calmEnv [] "2020-03-01".toList ⟨none, []⟩
      = (Status.panicked, ⟨none, []⟩) ∧
    Alleles.checkAndSaveFile calmEnv emblBody "2020-03-01".toList ⟨none, []⟩
      = (Status.ok, ⟨none, [("NHP00001.embl".toList, emblBody)]⟩) := by
  decide

/-! ## C7: a sequence line that begins with `ID` replaces the header line -/

/-- C7, at a sequence-header body whose second sequence line begins with `ID`: the line
kept as identifier line is `IDAAPLLK`, not the header, the body is handled as a flat file
and the call panics on the empty date line; nothing is written.  Without that line the
body is written to `NHP00001.fasta`. -/
theorem checkAndSaveFile_header_overridden :
    (scanBody ">IPD-MHC:NHP00001 Mamu-A1*001:01 365 bp\nMAVMAPRTLL\nIDAAPLLK\n".toList).idLine
      = "IDAAPLLK".toList ∧
    checkAndSaveFile calmEnv "NHP00001".toList []
        ">IPD-MHC:NHP00001 Mamu-A1*001:01 365 bp\nMAVMAPRTLL\nIDAAPLLK\n".toList
        "2020-03-01".toList ⟨none, []⟩
      = (Status.panicked, ⟨none, []⟩) ∧
    checkAndSaveFile calmEnv "NHP00001".toList []
        ">IPD-MHC:NHP00001 Mamu-A1*001:01 365 bp\nMAVMAPRTLL\n".toList
        "2020-03-01".toList ⟨none, []⟩
      = (Status.ok, ⟨none, [("NHP00001.fasta".toList,
          ">IPD-MHC:NHP00001 Mamu-A1*001:01 365 bp\nMAVMAPRTLL\n".toList)]⟩) := by
  decide

/-! ## C8: a missing date line panics, a missing identifier line is indexed -/

/-- C8: on the empty body, on a body without a `DT` line and on a `DT` line without a
token, `checkAndSaveFile` panics (index 0 of an empty slice) instead of returning an
error; on a body with a date line and no identifier line it returns nil after an upsert of
the empty identifier, and writes `.embl` when the date is after the cutoff. -/
theorem checkAndSaveFile_malformed_body :
    checkAndSaveFile calmEnv "NHP00001".toList [] [] "2020-03-01".toList ⟨none, []⟩
      = (Status.panicked, ⟨none, []⟩) ∧
    checkAndSaveFile calmEnv "NHP00001".toList [] "ID   NHP00001; SV 1\nXX\n".toList
        "2020-03-01".toList ⟨none, []⟩
      = (Status.panicked, ⟨none, []⟩) ∧
    checkAndSaveFile calmEnv "NHP00001".toList [] "ID   NHP00001; SV 1\nDT   \n".toList
        "2020-03-01".toList ⟨none, []⟩
      = (Status.panicked, ⟨none, []⟩) ∧
    checkAndSaveFile calmEnv "NHP00001".toList [] "DT   01/01/2021\n".toList
        "2020-03-01".toList ⟨none, []⟩
      = (Status.ok, ⟨some [([], "01/01/2021".toList)],
          [(".embl".toList, "DT   01/01/2021\n".toList)]⟩) := by
  decide

/-! ## C9: the known identifiers are the boundary set, not the keys of the index -/

/-- C9, at the index `NHP00003: 01/02/2020, NHP00007: 01/01/2019` with the cutoff
`2020-03-01`: the boundary set is `[3]`, the jobs for a count of 7 include `NHP00007`, and
the body fetched for it is dated `02/01/2019`, before the cutoff, its identifier being a
key of the index.  The known identifiers `downloadFile` builds are `NHP00003` alone, so
`buildDateLookup` is called and the persisted mapping changes (no file is written). -/
theorem downloadFile_replay_rewrites_index :
    determineStartingPoint
        (some [("NHP00003".toList, "01/02/2020".toList), ("NHP00007".toList, "01/01/2019".toList)])
        "2020-03-01".toList = some [3] ∧
    (defineUrls 8 [3] 7 "MHC".toList).map (fun p => p.2)
      = some ["NHP00003".toList, "NHP00004".toList, "NHP00005".toList, "NHP00006".toList,
          "NHP00007".toList] ∧
    Index.get [("NHP00003".toList, "01/02/2020".toList), ("NHP00007".toList, "01/01/2019".toList)]
        "NHP00007".toList = some "01/01/2019".toList ∧
    Time.After ⟨2019, 1, 2⟩ ⟨2020, 3, 1⟩ = false ∧
    downloadFile calmEnv (some "ID   NHP00007; SV 2; standard\nDT   02/01/2019 (Rel. 3)\n".toList)
        "https://www.ebi.ac.uk/Tools/dbfetch/dbfetch?db=ipdmhc;id=NHP00007;style=raw".toList
        "NHP00007".toList [3] "2020-03-01".toList
        ⟨some [("NHP00003".toList, "01/02/2020".toList), ("NHP00007".toList, "01/01/2019".toList)], []⟩
      = (Status.ok,
          ⟨some [("NHP00003".toList, "01/02/2020".toList), ("NHP00007".toList, "02/01/2019".toList)],
            []⟩) := by
  decide

/-! ## Decimal digits -/

theorem digitChar_spec : ∀ d, d < 10 → isDigit (digitChar d) = true ∧ digitVal (digitChar d) = d := by
  decide

theorem foldl_digits (ds : GoString) (a : Nat) :
    ds.foldl (fun a c => a * 10 + digitVal c) a = a * 10 ^ ds.length + digitsVal ds := by
  induction ds generalizing a with
  | nil => simp [digitsVal]
  | cons c ds ih =>
    have h1 := ih (a * 10 + digitVal c)
    have h2 := ih (0 * 10 + digitVal c)
    simp only [List.foldl_cons, digitsVal, List.length_cons] at h1 h2 ⊢
    rw [h1, h2]
    ring

theorem digitsVal_cons (c : Char) (ds : GoString) :
    digitsVal (c :: ds) = digitVal c * 10 ^ ds.length + digitsVal ds := by
  have := foldl_digits ds (0 * 10 + digitVal c)
  simp only [digitsVal, List.foldl_cons] at this ⊢
  rw [this]
  ring

theorem itoaAux_value (fuel n : Nat) (acc : GoString) (h : n < fuel) :
    digitsVal (itoaAux fuel n acc) = n * 10 ^ acc.length + digitsVal acc := by
  induction fuel generalizing n acc with
  | zero => omega
  | succ fuel ih =>
    unfold itoaAux
    have hd := (digitChar_spec (n % 10) (Nat.mod_lt _ (by norm_num))).2
    by_cases h0 : n / 10 = 0
    · rw [if_pos h0, digitsVal_cons, hd]
      have : n % 10 = n := by omega
      rw [this]
    · rw [if_neg h0, ih (n / 10) _ (by omega), digitsVal_cons, hd]
      simp only [List.length_cons, pow_succ]
      have e : n * 10 ^ acc.length = (10 * (n / 10) + n % 10) * 10 ^ acc.length := by
        rw [Nat.div_add_mod n 10]
      rw [e]
      ring

theorem itoaAux_all_digits (fuel n : Nat) (acc : GoString) (h : acc.all isDigit = true) :
    (itoaAux fuel n acc).all isDigit = true := by
  induction fuel generalizing n acc with
  | zero => simpa [itoaAux] using h
  | succ fuel ih =>
    unfold itoaAux
    have hd := (digitChar_spec (n % 10) (Nat.mod_lt _ (by norm_num))).1
    have hacc : (digitChar (n % 10) :: acc).all isDigit = true := by
      simp only [List.all_cons, hd, h, Bool.and_self]
    by_cases h0 : n / 10 = 0
    · rw [if_pos h0]
      exact hacc
    · rw [if_neg h0]
      exact ih _ _ hacc

theorem itoaAux_length_le (fuel n k : Nat) (acc : GoString) (h : n < fuel) (hk : n < 10 ^ (k + 1)) :
    (itoaAux fuel n acc).length ≤ acc.length + k + 1 := by
  induction fuel generalizing n k acc with
  | zero => omega
  | succ fuel ih =>
    unfold itoaAux
    by_cases h0 : n / 10 = 0
    · rw [if_pos h0]
      simp
    · rw [if_neg h0]
      cases k with
      | zero =>
        exfalso
        simp at hk
        omega
      | succ j =>
        have hj : n / 10 < 10 ^ (j + 1) := by
          apply Nat.div_lt_of_lt_mul
          rw [pow_succ] at hk
          omega
        have := ih (n / 10) j (digitChar (n % 10) :: acc) (by omega) hj
        simp only [List.length_cons] at this
        omega

theorem itoaAux_length_ge (fuel n k : Nat) (acc : GoString) (h : n < fuel) (hk : 10 ^ k ≤ n) :
    acc.length + k + 1 ≤ (itoaAux fuel n acc).length := by
  induction fuel generalizing n k acc with
  | zero => omega
  | succ fuel ih =>
    unfold itoaAux
    by_cases h0 : n / 10 = 0
    · rw [if_pos h0]
      cases k with
      | zero => simp
      | succ j =>
        exfalso
        have : 10 ≤ 10 ^ (j + 1) := by
          calc 10 = 10 ^ 1 := by norm_num
            _ ≤ 10 ^ (j + 1) := Nat.pow_le_pow_right (by norm_num) (by omega)
        omega
    · rw [if_neg h0]
      cases k with
      | zero =>
        have := ih (n / 10) 0 (digitChar (n % 10) :: acc) (by omega) (by simp; omega)
        simp only [List.length_cons] at this
        omega
      | succ j =>
        have hj : 10 ^ j ≤ n / 10 := by
          rw [Nat.le_div_iff_mul_le (by norm_num)]
          rw [pow_succ] at hk
          exact hk
        have := ih (n / 10) j (digitChar (n % 10) :: acc) (by omega) hj
        simp only [List.length_cons] at this
        omega

theorem digitsVal_zeros (k : Nat) (ds : GoString) :
    digitsVal (List.replicate k '0' ++ ds) = digitsVal ds := by
  induction k with
  | zero => simp
  | succ k ih =>
    have h0 : digitVal '0' = 0 := by decide
    rw [List.replicate_succ, List.cons_append, digitsVal_cons, h0, ih]
    simp

/-- The verb `%05d` on a non-negative integer: only decimal digits, whose value is the
integer; five of them up to 99999, and beyond that the digits of the integer without
padding, more than five. -/
theorem Sprintf05d_nonneg (i : Int) (hi : 0 ≤ i) :
    (Sprintf05d i).all isDigit = true ∧ digitsVal (Sprintf05d i) = i.toNat ∧
    (i ≤ 99999 → (Sprintf05d i).length = 5) ∧
    (99999 < i → 5 < (Sprintf05d i).length ∧ Sprintf05d i = Itoa i.toNat) := by
  have hneg : ¬ i < 0 := by omega
  have hn : i.natAbs = i.toNat := by omega
  have h0 : isDigit '0' = true := by decide
  unfold Sprintf05d
  rw [if_neg hneg, hn]
  refine ⟨?_, ?_, ?_, ?_⟩
  · rw [List.all_append]
    have h1 : (List.replicate (5 - (Itoa i.toNat).length) '0').all isDigit = true := by
      rw [List.all_eq_true]
      intro x hx
      rw [List.eq_of_mem_replicate hx]
      exact h0
    rw [h1]
    exact itoaAux_all_digits _ _ _ rfl
  · rw [digitsVal_zeros]
    have := itoaAux_value (i.toNat + 1) i.toNat [] (by omega)
    simpa [Itoa, digitsVal] using this
  · intro hle
    have hlen : (Itoa i.toNat).length ≤ 5 := by
      have := itoaAux_length_le (i.toNat + 1) i.toNat 4 [] (by omega) (by norm_num; omega)
      simpa [Itoa] using this
    simp only [List.length_append, List.length_replicate]
    omega
  · intro hgt
    have hlen : 6 ≤ (Itoa i.toNat).length := by
      have := itoaAux_length_ge (i.toNat + 1) i.toNat 5 [] (by omega) (by norm_num; omega)
      simpa [Itoa] using this
    have hz : 5 - (Itoa i.toNat).length = 0 := by omega
    rw [hz, List.replicate_zero, List.nil_append]
    exact ⟨by omega, rfl⟩

/-! ## C10: identifiers of more than five digits -/

/-- C10 as stated fails at the integer 123456 with the code `MHC`: the identifier emitted
is `NHP123456`, the prefix followed by six digits; the integer is neither rejected nor
truncated. -/
theorem defineUrls_six_digits :
    defineUrls 1 [123456] 0 "MHC".toList
      = some (["https://www.ebi.ac.uk/Tools/dbfetch/dbfetch?db=ipdmhc;id=NHP123456;style=raw".toList],
              ["NHP123456".toList]) ∧
    ("NHP123456".toList.drop 3).length = 6 ∧
    idOf "MHC".toList 7 = "NHP00007".toList := by
  decide

/-- C10, amended: for a supported database code the identifiers `defineUrls` emits are, job
by job, the letters of the code (`NHP`, or `HLA` for the code `HLA`) followed by the
`%05d` rendering of the integer; for a non-negative integer that rendering has only decimal
digits and their value is the integer; it has exactly five digits (zero-padded) when the
integer is at most 99999, and for a larger integer it is the unpadded decimal numeral of
the integer, of more than five digits: nothing is rejected or truncated. -/
theorem defineUrls_identifier_digits (fuel : Nat) (B : List Int) (N : Int) (gene : GoString)
    (urls ids : List GoString) (hg : supportedGene gene = true)
    (h : defineUrls fuel B N gene = some (urls, ids)) :
    ∃ jobs, appendMissing fuel (wrapInt64 (maxIntegerOf B + 1)) N B = some jobs ∧
      ids = jobs.map (fun i => idLetters gene ++ Sprintf05d i) ∧
      (idLetters gene = "NHP".toList ∨ idLetters gene = "HLA".toList) ∧
      ∀ i ∈ jobs, 0 ≤ i →
        (Sprintf05d i).all isDigit = true ∧ digitsVal (Sprintf05d i) = i.toNat ∧
        (i ≤ 99999 → (Sprintf05d i).length = 5) ∧
        (99999 < i → 5 < (Sprintf05d i).length ∧ Sprintf05d i = Itoa i.toNat) := by
  rw [defineUrls_eq] at h
  cases hj : appendMissing fuel (wrapInt64 (maxIntegerOf B + 1)) N B with
  | none => rw [hj] at h; cases h
  | some jobs =>
    rw [hj] at h
    simp only [Option.map_some', hg, if_true, Option.some.injEq, Prod.mk.injEq] at h
    refine ⟨jobs, rfl, h.2.symm, ?_, fun i _ hi => Sprintf05d_nonneg i hi⟩
    unfold idLetters
    by_cases hh : gene = "HLA".toList
    · right; rw [if_pos hh]
    · left; rw [if_neg hh]

/-- Witness of C10 (amended): the jobs 99999, 100000 and 100001 of the code `HLA`. -/
theorem defineUrls_identifier_digits_witness :
    ∃ jobs, appendMissing 3 (wrapInt64 (maxIntegerOf [99999] + 1)) 100001 [99999] = some jobs ∧
      ["HLA99999".toList, "HLA100000".toList, "HLA100001".toList]
        = jobs.map (fun i => idLetters "HLA".toList ++ Sprintf05d i) ∧
      (idLetters "HLA".toList = "NHP".toList ∨ idLetters "HLA".toList = "HLA".toList) ∧
      ∀ i ∈ jobs, 0 ≤ i →
        (Sprintf05d i).all isDigit = true ∧ digitsVal (Sprintf05d i) = i.toNat ∧
        (i ≤ 99999 → (Sprintf05d i).length = 5) ∧
        (99999 < i → 5 < (Sprintf05d i).length ∧ Sprintf05d i = Itoa i.toNat) :=
  defineUrls_identifier_digits 3 [99999] 100001 "HLA".toList
    ["https://www.ebi.ac.uk/Tools/dbfetch/dbfetch?db=imgthla;id=HLA99999;style=raw".toList,
     "https://www.ebi.ac.uk/Tools/dbfetch/dbfetch?db=imgthla;id=HLA100000;style=raw".toList,
     "https://www.ebi.ac.uk/Tools/dbfetch/dbfetch?db=imgthla;id=HLA100001;style=raw".toList]
    ["HLA99999".toList, "HLA100000".toList, "HLA100001".toList] (by decide) (by decide)

end DownloadIPD
